import Mathlib

/-!
# gopher-omegle: the matchmaking-and-relay hub

A shallow embedding of `internal/services/websocket.go` (the `Hub`, its event
loop `Run`, `MatchUsers`, `HandleMessage`, `RemoveFromQueue`,
`HandleDisconnect`, the `RoomManager`, and one iteration of `ReadPump` /
`WritePump`) together with the client construction of
`internal/handlers/websocket/handler.go`.

Modelling conventions.

* A `*Client` is an address (`Nat`) into `Hub.mem`, the store of all client
  objects created so far; `Hub.next` is the first unused address.  The Go maps
  `Clients` and `Rooms` are finite association tables keyed by strings.
* A buffered Go channel of frames is a `Chan`: capacity, pending frames
  (oldest first) and the closed flag.  A frame is the `Message` whose JSON
  encoding the Go code puts on the channel.
* The hub loop is serial: `Run` processes one event completely.  An event
  either completes (`Except.ok`) or the loop stops: `Fault.blocked` is a
  blocking send that finds no space, `Fault.closedSend` a send on a closed
  channel, `Fault.closeClosed` a close of a closed channel.
* `RoomManager.counter` is a Go `int`; it is modelled as a natural number
  (the 2^63 rooms needed for an overflow are out of reach).
-/

namespace Omegle

/-! ## Data model -/

/-- Signaling envelope, `Message` of websocket.go (`Typ` is the field `Type`). -/
structure Message where
  Typ : String := ""
  RoomID : String := ""
  SDP : String := ""
  Candidate : String := ""
  CandType : String := ""
  From : String := ""
  Text : String := ""
deriving DecidableEq, Repr, Inhabited

/-- Buffered channel of frames (`chan []byte`). -/
structure Chan where
  cap : Nat
  buf : List Message
  closed : Bool
deriving DecidableEq, Repr, Inhabited

/-- The result of `make(chan []byte, cap)`. -/
def makeChan (cap : Nat) : Chan := ⟨cap, [], false⟩

/-- Participant, `Client` of websocket.go (`Conn` and `Hub` are not state of the hub). -/
structure Client where
  ID : String
  UserID : Nat
  Name : String
  RoomID : String
  Send : Chan
deriving DecidableEq, Repr, Inhabited

/-- Room of websocket.go: `User1` and `User2` are client addresses. -/
structure Room where
  ID : String
  User1 : Nat
  User2 : Nat
deriving DecidableEq, Repr, Inhabited

/-- Counter behind the room identifiers. -/
structure RoomManager where
  counter : Nat
deriving DecidableEq, Repr, Inhabited

/-- Finite string-keyed table standing for a Go `map[string]V`. -/
structure GoMap (V : Type) where
  entries : List (String × V)
deriving DecidableEq, Repr, Inhabited

namespace GoMap

variable {V : Type}

/-- The result of `make(map[string]V)`. -/
def empty : GoMap V := ⟨[]⟩

/-- Lookup in an entry list. -/
def lookup (k : String) : List (String × V) → Option V
  | [] => none
  | e :: es => if e.1 = k then some e.2 else lookup k es

/-- Comma-ok lookup `v, ok := m[k]`. -/
def get (m : GoMap V) (k : String) : Option V := lookup k m.entries

/-- Builtin `delete(m, k)`. -/
def delete (m : GoMap V) (k : String) : GoMap V :=
  ⟨m.entries.filter (fun e => !decide (e.1 = k))⟩

/-- Assignment `m[k] = v`. -/
def set (m : GoMap V) (k : String) (v : V) : GoMap V :=
  ⟨(k, v) :: (m.delete k).entries⟩

/-- Builtin `len(m)`. -/
def len (m : GoMap V) : Nat := m.entries.length

end GoMap

/-- Hub state: the Go fields `Clients`, `Queue`, `Rooms`, `RoomManager`, and the
store `mem`/`next` of client objects that the pointers refer to. -/
structure Hub where
  mem : Nat → Client
  next : Nat
  Clients : GoMap Nat
  Queue : List String
  Rooms : GoMap Room
  RoomManager : RoomManager

/-- Ways in which the hub loop stops instead of completing an event. -/
inductive Fault where
  | blocked
  | closedSend
  | closeClosed
deriving DecidableEq, Repr

/-! ## Channels -/

/-- Blocking send `ch <- m` with no receiver ready. -/
def Chan.send (ch : Chan) (m : Message) : Except Fault Chan :=
  if ch.closed then .error .closedSend
  else if ch.buf.length < ch.cap then .ok { ch with buf := ch.buf ++ [m] }
  else .error .blocked

/-- Non-blocking attempt `select { case ch <- m: default: }` with no receiver ready. -/
def Chan.trySend (ch : Chan) (m : Message) : Except Fault Chan :=
  if ch.closed then .error .closedSend
  else if ch.buf.length < ch.cap then .ok { ch with buf := ch.buf ++ [m] }
  else .ok ch

/-- Builtin `close(ch)`. -/
def Chan.close (ch : Chan) : Except Fault Chan :=
  if ch.closed then .error .closeClosed else .ok { ch with closed := true }

/-- One receive `<-ch` that finds a frame: the oldest frame leaves the buffer. -/
def Chan.recv (ch : Chan) : Chan := { ch with buf := ch.buf.tail }

/-! ## Room identifiers -/

/-- Decimal rendering `strconv.Itoa` of a non-negative counter. -/
def Itoa (n : Nat) : String := String.mk (Nat.toDigits 10 n)

/-- Constructor `NewRoomManager` (websocket.go:278). -/
def NewRoomManager : RoomManager := { counter := 0 }

/-- Method `RoomManager.CreateRoom` (websocket.go:282): increment the counter and render it. -/
def RoomManager.CreateRoom (rm : RoomManager) : String × RoomManager :=
  let rm1 : RoomManager := { counter := rm.counter + 1 }
  (Itoa rm1.counter, rm1)

/-! ## Hub operations -/

/-- Constructor `NewHub` (websocket.go:49): empty registry, queue and room table. -/
def NewHub : Hub :=
  { mem := fun _ => default
    next := 0
    Clients := GoMap.empty
    Queue := []
    Rooms := GoMap.empty
    RoomManager := NewRoomManager }

/-- Overwrite the client object at address `p`. -/
def Hub.store (h : Hub) (p : Nat) (c : Client) : Hub :=
  { h with mem := fun q => if q = p then c else h.mem q }

/-- Assignment `p.RoomID = r`. -/
def Hub.setRoomID (h : Hub) (p : Nat) (r : String) : Hub :=
  h.store p { h.mem p with RoomID := r }

/-- Blocking send `p.Send <- m`. -/
def Hub.sendTo (h : Hub) (p : Nat) (m : Message) : Except Fault Hub :=
  match (h.mem p).Send.send m with
  | .ok ch => .ok (h.store p { h.mem p with Send := ch })
  | .error f => .error f

/-- Non-blocking attempt `select { case p.Send <- m: default: }`. -/
def Hub.trySendTo (h : Hub) (p : Nat) (m : Message) : Except Fault Hub :=
  match (h.mem p).Send.trySend m with
  | .ok ch => .ok (h.store p { h.mem p with Send := ch })
  | .error f => .error f

/-- Statement `close(p.Send)`. -/
def Hub.closeSend (h : Hub) (p : Nat) : Except Fault Hub :=
  match (h.mem p).Send.close with
  | .ok ch => .ok (h.store p { h.mem p with Send := ch })
  | .error f => .error f

/-- Method `Hub.RemoveFromQueue` (websocket.go:197): drop the first occurrence of `clientID`. -/
def Hub.RemoveFromQueue (h : Hub) (clientID : String) : Hub :=
  { h with Queue := h.Queue.erase clientID }

/-- Method `Hub.MatchUsers` (websocket.go:95). -/
def Hub.MatchUsers (h : Hub) : Except Fault Hub :=
  match h.Queue with
  | user1ID :: user2ID :: rest =>
    match h.Clients.get user1ID, h.Clients.get user2ID with
    | some user1, some user2 =>
      let h1 : Hub := { h with Queue := rest }
      let cr := h1.RoomManager.CreateRoom
      let roomID := cr.1
      let h2 : Hub := { h1 with RoomManager := cr.2 }
      let room : Room := { ID := roomID, User1 := user1, User2 := user2 }
      let h3 : Hub := { h2 with Rooms := h2.Rooms.set roomID room }
      let h4 := (h3.setRoomID user1 roomID).setRoomID user2 roomID
      match h4.trySendTo user1 { Typ := "send-offer", RoomID := roomID } with
      | .ok h5 => h5.trySendTo user2 { Typ := "match-found", RoomID := roomID }
      | .error f => .error f
    | o1, o2 =>
      let h1 := if o1.isNone then h.RemoveFromQueue user1ID else h
      let h2 := if o2.isNone then h1.RemoveFromQueue user2ID else h1
      .ok h2
  | _ => .ok h

/-- Method `Hub.HandleMessage` (websocket.go:166), the Route step. The frame put on the
channel is the message itself (its JSON encoding in the source). -/
def Hub.HandleMessage (h : Hub) (msg : Message) : Except Fault Hub :=
  match h.Rooms.get msg.RoomID with
  | none => .ok h
  | some room =>
    let recipient := if (h.mem room.User1).ID = msg.From then room.User2 else room.User1
    h.trySendTo recipient msg

/-- Method `Hub.HandleDisconnect` (websocket.go:206). A room user is never the nil
pointer, so the `other != nil` test always passes. -/
def Hub.HandleDisconnect (h : Hub) (client : Nat) : Except Fault Hub :=
  if (h.mem client).RoomID ≠ "" then
    match h.Rooms.get (h.mem client).RoomID with
    | some room =>
      let other := if (h.mem room.User1).ID = (h.mem client).ID then room.User2 else room.User1
      match h.trySendTo other { Typ := "user-disconnected" } with
      | .ok h1 => .ok { h1 with Rooms := h1.Rooms.delete (h1.mem client).RoomID }
      | .error f => .error f
    | none => .ok h
  else .ok h

/-- Events of the system: the three cases of the `select` in `Hub.Run`, and one
receive of the `WritePump` of a client (`Drain`). `Register` carries the client
object the gateway created; it is placed at the next free address. -/
inductive Event where
  | Register (client : Client)
  | Unregister (client : Nat)
  | Broadcast (message : Message)
  | Drain (client : Nat)

/-- The `Register` case of `Hub.Run`. -/
def Hub.RunRegister (h : Hub) (client : Client) : Except Fault Hub :=
  let p := h.next
  let h0 : Hub := { h.store p client with next := p + 1 }
  let h1 : Hub := { h0 with Clients := h0.Clients.set client.ID p
                            Queue := h0.Queue ++ [client.ID] }
  match h1.sendTo p { Typ := "lobby" } with
  | .ok h2 => h2.MatchUsers
  | .error f => .error f

/-- The `Unregister` case of `Hub.Run`. -/
def Hub.RunUnregister (h : Hub) (client : Nat) : Except Fault Hub :=
  match h.Clients.get (h.mem client).ID with
  | some _ =>
    let h1 : Hub := { h with Clients := h.Clients.delete (h.mem client).ID }
    match h1.closeSend client with
    | .ok h2 => (h2.RemoveFromQueue (h2.mem client).ID).HandleDisconnect client
    | .error f => .error f
  | none => .ok h

/-- One iteration of `Hub.Run`, extended by the receive of a write loop. -/
def Hub.Run (h : Hub) : Event → Except Fault Hub
  | .Register client => h.RunRegister client
  | .Unregister client => h.RunUnregister client
  | .Broadcast message => h.HandleMessage message
  | .Drain client => .ok (h.store client { h.mem client with Send := (h.mem client).Send.recv })

/-- Process a list of events in order, stopping at the first fault. -/
def Hub.RunAll (h : Hub) : List Event → Except Fault Hub
  | [] => .ok h
  | e :: es =>
    match h.Run e with
    | .ok h1 => h1.RunAll es
    | .error f => .error f

/-- The message types `ReadPump` forwards to the hub. -/
def forwardable (t : String) : Bool :=
  t = "offer" || t = "answer" || t = "add-ice-candidate" || t = "chat" || t = "typing"

/-- One iteration of `Client.ReadPump` on a parsed wire message: stamp the
sender, forward the signaling and conversational types, drop the rest. -/
def ReadPump (c : Client) (wire : Message) : Option Message :=
  let msg : Message := { wire with From := c.ID }
  if forwardable msg.Typ then some msg else none

/-- The client object built by `HandleWebSocket`, with the channel capacity
(256 there) as a parameter. -/
def newClient (id name : String) (cap : Nat) : Client :=
  { ID := id, UserID := 0, Name := name, RoomID := "", Send := makeChan cap }

/-! ## Traces, reachable states and the invariant -/

/-- The registry resolves the identifier of the client at `p` to `p`. -/
def Hub.registered (h : Hub) (p : Nat) : Prop := h.Clients.get (h.mem p).ID = some p

instance (h : Hub) (p : Nat) : Decidable (h.registered p) :=
  inferInstanceAs (Decidable (h.Clients.get (h.mem p).ID = some p))

/-- The room `room` binds the client at `p`. -/
def Room.has (room : Room) (p : Nat) : Prop := room.User1 = p ∨ room.User2 = p

instance (room : Room) (p : Nat) : Decidable (room.has p) :=
  inferInstanceAs (Decidable (room.User1 = p ∨ room.User2 = p))

/-- The identifier of `c` is not the identifier of any client created so far. -/
def Fresh (h : Hub) (c : Client) : Prop := ∀ p, p < h.next → (h.mem p).ID ≠ c.ID

instance (h : Hub) (c : Client) : Decidable (Fresh h c) :=
  inferInstanceAs (Decidable (∀ p, p < h.next → (h.mem p).ID ≠ c.ID))

/-- Events the surrounding program can deliver in state `h`: a `Register` brings
a newly created connection (fresh identifier, no room, open channel), an
`Unregister` or `Drain` names a client created earlier. -/
def Admissible (h : Hub) : Event → Prop
  | .Register c => Fresh h c ∧ c.RoomID = "" ∧ c.Send.closed = false
  | .Unregister p => p < h.next
  | .Broadcast _ => True
  | .Drain p => p < h.next

instance (h : Hub) : (e : Event) → Decidable (Admissible h e)
  | .Register c => inferInstanceAs (Decidable (Fresh h c ∧ c.RoomID = "" ∧ c.Send.closed = false))
  | .Unregister p => inferInstanceAs (Decidable (p < h.next))
  | .Broadcast _ => inferInstanceAs (Decidable True)
  | .Drain p => inferInstanceAs (Decidable (p < h.next))

/-- Every event of the list is admissible in the state in which it is processed. -/
def Hub.allAdmissible (h : Hub) : List Event → Bool
  | [] => true
  | e :: es =>
    decide (Admissible h e) &&
      match h.Run e with
      | .ok h1 => h1.allAdmissible es
      | .error _ => true

/-- States the hub reaches from `NewHub` by completed admissible events. -/
inductive Reachable : Hub → Prop
  | init : Reachable NewHub
  | step (h : Hub) (e : Event) (h1 : Hub) :
      Reachable h → Admissible h e → h.Run e = .ok h1 → Reachable h1

/-- The state after the events `es`, or `NewHub` when the loop stops on the way. -/
def Hub.after (es : List Event) : Hub :=
  match NewHub.RunAll es with
  | .ok h => h
  | .error _ => NewHub

/-- The loop completes every event of the list. -/
def Hub.completes (h : Hub) (es : List Event) : Bool :=
  match h.RunAll es with
  | .ok _ => true
  | .error _ => false

/-- The frame a non-blocking attempt leaves in the buffer: appended when there is space. -/
def Chan.offer (ch : Chan) (m : Message) : Chan :=
  if ch.buf.length < ch.cap then { ch with buf := ch.buf ++ [m] } else ch

/-- The hub after a non-blocking attempt on the open channel of `p`. -/
def Hub.offerTo (h : Hub) (p : Nat) (m : Message) : Hub :=
  h.store p { h.mem p with Send := (h.mem p).Send.offer m }

/-- Two states that differ at most in the pending frames of the channels. -/
structure SameShape (h h1 : Hub) : Prop where
  next : h1.next = h.next
  Clients : h1.Clients = h.Clients
  Queue : h1.Queue = h.Queue
  Rooms : h1.Rooms = h.Rooms
  RoomManager : h1.RoomManager = h.RoomManager
  ID : ∀ q, (h1.mem q).ID = (h.mem q).ID
  RoomID : ∀ q, (h1.mem q).RoomID = (h.mem q).RoomID
  closed : ∀ q, (h1.mem q).Send.closed = (h.mem q).Send.closed

/-- What holds of the registry, the queue, the room table and the client
objects in every reachable state. -/
structure Inv (h : Hub) : Prop where
  clients_ok : ∀ id p, h.Clients.get id = some p →
    p < h.next ∧ (h.mem p).ID = id ∧ (h.mem p).Send.closed = false
  ids_unique : ∀ p q, p < h.next → q < h.next → (h.mem p).ID = (h.mem q).ID → p = q
  queue_nodup : h.Queue.Nodup
  queue_ok : ∀ id, id ∈ h.Queue → ∃ p, h.Clients.get id = some p ∧ (h.mem p).RoomID = ""
  rooms_ok : ∀ rid room, h.Rooms.get rid = some room →
    room.ID = rid ∧ room.User1 ≠ room.User2 ∧ h.registered room.User1 ∧ h.registered room.User2 ∧
    (h.mem room.User1).RoomID = rid ∧ (h.mem room.User2).RoomID = rid ∧
    ∃ k, 1 ≤ k ∧ k ≤ h.RoomManager.counter ∧ rid = Itoa k
  roomid_ok : ∀ p, p < h.next → (h.mem p).RoomID = "" ∨
    ∃ k, 1 ≤ k ∧ k ≤ h.RoomManager.counter ∧ (h.mem p).RoomID = Itoa k
  member : ∀ p room, p < h.next → h.Rooms.get (h.mem p).RoomID = some room → room.has p

/-! ## Matchmaking -/

/-- The state `MatchUsers` builds before its two notifications, when the two
oldest queue entries resolve to `user1` and `user2`. -/
def Hub.paired (h : Hub) (user1 user2 : Nat) (rest : List String) : Hub :=
  let roomID := Itoa (h.RoomManager.counter + 1)
  let h3 : Hub :=
    { h with Queue := rest
             RoomManager := { counter := h.RoomManager.counter + 1 }
             Rooms := h.Rooms.set roomID { ID := roomID, User1 := user1, User2 := user2 } }
  (h3.setRoomID user1 roomID).setRoomID user2 roomID

/-- The `send-offer` notification for room `r`. -/
def sendOffer (r : String) : Message := { Typ := "send-offer", RoomID := r }

/-- The `match-found` notification for room `r`. -/
def matchFound (r : String) : Message := { Typ := "match-found", RoomID := r }

/-! ## Admission -/

/-- The `lobby` notification. -/
def lobby : Message := { Typ := "lobby" }

/-- The state of the `Register` case after the registry update and the lobby
send, before matchmaking. -/
def Hub.lobbied (h : Hub) (c : Client) : Hub :=
  { h with mem := fun q =>
             if q = h.next then { c with Send := { c.Send with buf := c.Send.buf ++ [lobby] } }
             else h.mem q
           next := h.next + 1
           Clients := h.Clients.set c.ID h.next
           Queue := h.Queue ++ [c.ID] }

/-! ## Removal and teardown -/

/-- The `user-disconnected` notification. -/
def disconnected : Message := { Typ := "user-disconnected" }

/-- The state of the `Unregister` case for a registered client, before the
disconnect teardown: deregistered, channel closed, identifier out of the queue. -/
def Hub.removed (h : Hub) (p : Nat) : Hub :=
  { h with mem := fun q =>
             if q = p then { h.mem p with Send := { (h.mem p).Send with closed := true } }
             else h.mem q
           Clients := h.Clients.delete (h.mem p).ID
           Queue := h.Queue.erase (h.mem p).ID }

/-- The user of the room that is not `p`, as the teardown picks it. -/
def Room.peer (room : Room) (p : Nat) : Nat := if room.User1 = p then room.User2 else room.User1

/-- The state after removal and teardown of the room of `p`. -/
def Hub.torn (h : Hub) (p : Nat) (room : Room) : Hub :=
  { (h.removed p).offerTo (room.peer p) disconnected with
    Rooms := h.Rooms.delete (h.mem p).RoomID }

/-- What relates the state before the removal of a registered client `p` to
the state after it, pending frames apart. -/
structure Unreg (h : Hub) (p : Nat) (f : Hub) : Prop where
  next : f.next = h.next
  Clients : f.Clients = h.Clients.delete (h.mem p).ID
  Queue : f.Queue = h.Queue.erase (h.mem p).ID
  Rooms : f.Rooms = h.Rooms.delete (h.mem p).RoomID
  RoomManager : f.RoomManager = h.RoomManager
  ID : ∀ q, (f.mem q).ID = (h.mem q).ID
  RoomID : ∀ q, (f.mem q).RoomID = (h.mem q).RoomID
  closed : ∀ q, q ≠ p → (f.mem q).Send.closed = (h.mem q).Send.closed

/-! ## Concrete connections and traces -/

/-- Connection A as the gateway builds it. -/
def cA : Client := newClient "A" "Anonymous" 256

/-- Connection B as the gateway builds it. -/
def cB : Client := newClient "B" "Anonymous" 256

/-- Connection C as the gateway builds it. -/
def cC : Client := newClient "C" "Anonymous" 256

/-- Admit A, then B. -/
def traceAB : List Event := [.Register cA, .Register cB]

/-- Admit A, then B, then C. -/
def traceABC : List Event := [.Register cA, .Register cB, .Register cC]

/-- Admit A and B, then remove A. -/
def traceSurvivor : List Event := [.Register cA, .Register cB, .Unregister 0]

/-! ## Messages of the concrete traces -/

/-- A chat message that C, who is in no room, sends naming room "1", as stamped by the
read loop of C. -/
def outsiderMsg : Message := { Typ := "chat", RoomID := "1", From := "C", Text := "hi" }

/-- A chat message of A in room "1". -/
def chatA : Message := { Typ := "chat", RoomID := "1", From := "A", Text := "x" }

/-- Admit A and B, then route 254 chat messages of A: the buffer of B holds 256 frames. -/
def traceFull : List Event := traceAB ++ List.replicate 254 (.Broadcast chatA)

/-- An offer of A for room "1" as it arrives on the wire, with a forged sender. -/
def forgedOffer : Message := { Typ := "offer", RoomID := "1", SDP := "x", From := "B" }

/-! ## Unreferenced clients and repeated attempts -/

/-- The client at `p` was created, no registry entry and no room refers to it. -/
structure Gone (h : Hub) (p : Nat) : Prop where
  alloc : p < h.next
  noClient : ∀ id, h.Clients.get id ≠ some p
  noRoom : ∀ rid room, h.Rooms.get rid = some room → ¬ room.has p

/-- The non-blocking attempts that successive Route and notify steps make on
the channel of `p`, in order, with no receive in between. -/
def Hub.trySendAll (h : Hub) (p : Nat) : List Message → Except Fault Hub
  | [] => .ok h
  | m :: ms =>
    match h.trySendTo p m with
    | .ok h1 => h1.trySendAll p ms
    | .error f => .error f

/-! ## Admissions only -/

/-- The role notification that the participant admitted at position `i`
(counted from 0) is sent when only admissions are processed. -/
def roleMsg (i : Nat) : Message :=
  if i % 2 = 0 then sendOffer (Itoa (i / 2 + 1)) else matchFound (Itoa (i / 2 + 1))

/-- The hub state after the admission of exactly the clients `cs`, in order. -/
structure RegState (cs : List Client) (h : Hub) : Prop where
  next : h.next = cs.length
  counter : h.RoomManager.counter = cs.length / 2
  queue_even : cs.length % 2 = 0 → h.Queue = []
  queue_odd : cs.length % 2 = 1 → ∃ c, cs[cs.length - 1]? = some c ∧ h.Queue = [c.ID]
  client : ∀ i c, cs[i]? = some c → (h.mem i).ID = c.ID ∧ h.Clients.get c.ID = some i ∧
    (h.mem i).Send.closed = false ∧ (h.mem i).Send.cap = c.Send.cap
  matched : ∀ i c, cs[i]? = some c → i < 2 * (cs.length / 2) →
    (h.mem i).RoomID = Itoa (i / 2 + 1) ∧
    (h.mem i).Send.buf =
      if c.Send.buf.length + 1 < c.Send.cap then c.Send.buf ++ [lobby, roleMsg i]
      else c.Send.buf ++ [lobby]
  waiting : ∀ i c, cs[i]? = some c → 2 * (cs.length / 2) ≤ i →
    (h.mem i).Send.buf = c.Send.buf ++ [lobby]
  rooms : ∀ k, 1 ≤ k → k ≤ cs.length / 2 →
    h.Rooms.get (Itoa k) = some { ID := Itoa k, User1 := 2 * k - 2, User2 := 2 * k - 1 }
  keys : ∀ rid room, h.Rooms.get rid = some room → ∃ k, 1 ≤ k ∧ k ≤ cs.length / 2 ∧ rid = Itoa k
  len : h.Rooms.len = cs.length / 2

/-! ## Reading decimal identifiers back -/

/-- Value of a decimal digit character. -/
def digitVal (c : Char) : Nat := c.toNat - 48

/-- Read a digit string back, most significant digit first. -/
def decodeDigits (acc : Nat) (cs : List Char) : Nat :=
  cs.foldl (fun a c => 10 * a + digitVal c) acc

set_option maxRecDepth 100000

/-! ## Facts about tables and decimal identifiers -/

namespace GoMap

variable {V : Type}

theorem lookup_filter_self (k : String) (es : List (String × V)) :
    lookup k (es.filter (fun e => !decide (e.1 = k))) = none := by
  induction es with
  | nil => rfl
  | cons e es ih =>
    by_cases hk : e.1 = k
    · simp only [List.filter_cons, hk, decide_True, Bool.not_true]
      simpa [hk] using ih
    · simp only [List.filter_cons, hk, decide_False, Bool.not_false, if_true, lookup, if_false]
      exact ih

theorem lookup_filter_ne {k k1 : String} (hne : k1 ≠ k) (es : List (String × V)) :
    lookup k1 (es.filter (fun e => !decide (e.1 = k))) = lookup k1 es := by
  induction es with
  | nil => rfl
  | cons e es ih =>
    by_cases hk : e.1 = k
    · have h1 : e.1 ≠ k1 := fun h => hne (h.symm.trans hk)
      simp only [List.filter_cons, hk, decide_True, Bool.not_true, lookup]
      rw [hk] at h1
      simpa [h1] using ih
    · by_cases h1 : e.1 = k1
      · have hk1 : ¬ k1 = k := fun h => hk (h1.trans h)
        simp [List.filter_cons, hk1, lookup, h1]
      · simp only [List.filter_cons, hk, decide_False, Bool.not_false, if_true, lookup, h1,
          if_false]
        exact ih

theorem filter_of_lookup_none {k : String} (es : List (String × V)) (hn : lookup k es = none) :
    es.filter (fun e => !decide (e.1 = k)) = es := by
  induction es with
  | nil => rfl
  | cons e es ih =>
    by_cases hk : e.1 = k
    · simp [lookup, hk] at hn
    · simp only [lookup, hk, if_false] at hn
      simp only [List.filter_cons, hk, decide_False, Bool.not_false, if_true]
      rw [ih hn]

@[simp] theorem get_empty (k : String) : (empty : GoMap V).get k = none := rfl

@[simp] theorem get_set_same (m : GoMap V) (k : String) (v : V) : (m.set k v).get k = some v := by
  simp [get, set, lookup]

theorem get_set_ne (m : GoMap V) {k k1 : String} (v : V) (hne : k1 ≠ k) :
    (m.set k v).get k1 = m.get k1 := by
  have h1 : ¬ k = k1 := fun h => hne h.symm
  simp [get, set, lookup, h1, delete, lookup_filter_ne hne]

theorem get_set (m : GoMap V) (k k1 : String) (v : V) :
    (m.set k v).get k1 = if k1 = k then some v else m.get k1 := by
  by_cases h : k1 = k
  · subst h; simp
  · simp [h, get_set_ne m v h]

@[simp] theorem get_delete_same (m : GoMap V) (k : String) : (m.delete k).get k = none := by
  simp [get, delete, lookup_filter_self]

theorem get_delete_ne (m : GoMap V) {k k1 : String} (hne : k1 ≠ k) :
    (m.delete k).get k1 = m.get k1 := by
  simp [get, delete, lookup_filter_ne hne]

theorem get_delete (m : GoMap V) (k k1 : String) :
    (m.delete k).get k1 = if k1 = k then none else m.get k1 := by
  by_cases h : k1 = k
  · subst h; simp
  · simp [h, get_delete_ne m h]

theorem delete_of_get_none (m : GoMap V) {k : String} (hn : m.get k = none) : m.delete k = m := by
  cases m with
  | mk es => simp only [delete, get] at *; rw [filter_of_lookup_none es hn]

theorem len_set_of_get_none (m : GoMap V) {k : String} (v : V) (hn : m.get k = none) :
    (m.set k v).len = m.len + 1 := by
  simp [set, len, delete_of_get_none m hn]

end GoMap

theorem digitVal_digitChar (k : Nat) (hk : k < 10) : digitVal (Nat.digitChar k) = k := by
  interval_cases k <;> rfl

theorem decode_toDigitsCore (fuel : Nat) : ∀ (n : Nat) (ds : List Char), n < fuel →
    decodeDigits 0 (Nat.toDigitsCore 10 fuel n ds) = decodeDigits n ds := by
  induction fuel with
  | zero => intro n ds h; omega
  | succ f ih =>
    intro n ds h
    have hd : digitVal (Nat.digitChar (n % 10)) = n % 10 :=
      digitVal_digitChar _ (Nat.mod_lt _ (by norm_num))
    simp only [Nat.toDigitsCore]
    split
    · rename_i h0
      have hn : n % 10 = n := Nat.mod_eq_of_lt (by omega)
      simp only [decodeDigits, List.foldl_cons, hd]
      simp [hn]
    · rename_i h0
      rw [ih (n / 10) _ (by omega)]
      simp only [decodeDigits, List.foldl_cons, hd]
      congr 1
      omega

theorem toDigitsCore_ne_nil (fuel : Nat) : ∀ (n : Nat) (ds : List Char), ds ≠ [] →
    Nat.toDigitsCore 10 fuel n ds ≠ [] := by
  induction fuel with
  | zero => intro n ds h; simpa [Nat.toDigitsCore] using h
  | succ f ih =>
    intro n ds _
    simp only [Nat.toDigitsCore]
    split
    · simp
    · exact ih _ _ (by simp)

theorem Itoa_injective : Function.Injective Itoa := by
  intro a b hab
  have h1 : Nat.toDigits 10 a = Nat.toDigits 10 b := congrArg String.data hab
  have h2 := congrArg (decodeDigits 0) h1
  simp only [Nat.toDigits] at h2
  rw [decode_toDigitsCore _ _ _ (Nat.lt_succ_self a),
    decode_toDigitsCore _ _ _ (Nat.lt_succ_self b)] at h2
  simpa [decodeDigits] using h2

theorem Itoa_ne_empty (n : Nat) : Itoa n ≠ "" := by
  intro h
  have h1 : Nat.toDigits 10 n = [] := congrArg String.data h
  simp only [Nat.toDigits, Nat.toDigitsCore] at h1
  split at h1
  · simp at h1
  · exact toDigitsCore_ne_nil _ _ _ (by simp) h1

theorem Itoa_one : Itoa 1 = "1" := by decide

/-! ## Facts about channels and the invariant -/

@[simp] theorem store_mem (h : Hub) (p : Nat) (c : Client) (q : Nat) :
    (h.store p c).mem q = if q = p then c else h.mem q := rfl
@[simp] theorem store_next (h : Hub) (p : Nat) (c : Client) : (h.store p c).next = h.next := rfl
@[simp] theorem store_Clients (h : Hub) (p : Nat) (c : Client) :
    (h.store p c).Clients = h.Clients := rfl
@[simp] theorem store_Queue (h : Hub) (p : Nat) (c : Client) : (h.store p c).Queue = h.Queue := rfl
@[simp] theorem store_Rooms (h : Hub) (p : Nat) (c : Client) : (h.store p c).Rooms = h.Rooms := rfl
@[simp] theorem store_RoomManager (h : Hub) (p : Nat) (c : Client) :
    (h.store p c).RoomManager = h.RoomManager := rfl

@[simp] theorem offer_cap (ch : Chan) (m : Message) : (ch.offer m).cap = ch.cap := by
  unfold Chan.offer; split <;> rfl
@[simp] theorem offer_closed (ch : Chan) (m : Message) : (ch.offer m).closed = ch.closed := by
  unfold Chan.offer; split <;> rfl
theorem offer_buf (ch : Chan) (m : Message) :
    (ch.offer m).buf = if ch.buf.length < ch.cap then ch.buf ++ [m] else ch.buf := by
  unfold Chan.offer; split <;> rfl

theorem trySend_open (ch : Chan) (m : Message) (ho : ch.closed = false) :
    ch.trySend m = .ok (ch.offer m) := by
  unfold Chan.trySend Chan.offer
  simp only [ho, Bool.false_eq_true, if_false]
  split <;> rfl

theorem trySendTo_open (h : Hub) (p : Nat) (m : Message) (ho : (h.mem p).Send.closed = false) :
    h.trySendTo p m = .ok (h.offerTo p m) := by
  unfold Hub.trySendTo Hub.offerTo
  rw [trySend_open _ _ ho]

theorem trySendTo_closed (h : Hub) (p : Nat) (m : Message) (hc : (h.mem p).Send.closed = true) :
    h.trySendTo p m = .error .closedSend := by
  unfold Hub.trySendTo Chan.trySend
  simp [hc]

theorem SameShape.refl (h : Hub) : SameShape h h :=
  ⟨rfl, rfl, rfl, rfl, rfl, fun _ => rfl, fun _ => rfl, fun _ => rfl⟩

theorem SameShape.trans {a b c : Hub} (hab : SameShape a b) (hbc : SameShape b c) :
    SameShape a c :=
  ⟨hbc.next.trans hab.next, hbc.Clients.trans hab.Clients, hbc.Queue.trans hab.Queue,
    hbc.Rooms.trans hab.Rooms, hbc.RoomManager.trans hab.RoomManager,
    fun q => (hbc.ID q).trans (hab.ID q), fun q => (hbc.RoomID q).trans (hab.RoomID q),
    fun q => (hbc.closed q).trans (hab.closed q)⟩

theorem sameShape_offerTo (h : Hub) (p : Nat) (m : Message) : SameShape h (h.offerTo p m) := by
  refine ⟨rfl, rfl, rfl, rfl, rfl, ?_, ?_, ?_⟩ <;> intro q <;>
    by_cases hq : q = p <;> simp [Hub.offerTo, hq]

theorem sameShape_drain (h : Hub) (p : Nat) :
    SameShape h (h.store p { h.mem p with Send := (h.mem p).Send.recv }) := by
  refine ⟨rfl, rfl, rfl, rfl, rfl, ?_, ?_, ?_⟩ <;> intro q <;>
    by_cases hq : q = p <;> simp [hq, Chan.recv]

theorem Inv.of_sameShape {h h1 : Hub} (hi : Inv h) (s : SameShape h h1) : Inv h1 := by
  constructor
  · intro id p hg
    rw [s.Clients] at hg
    rw [s.next, s.ID, s.closed]
    exact hi.clients_ok id p hg
  · intro p q hp hq he
    rw [s.next] at hp hq
    rw [s.ID, s.ID] at he
    exact hi.ids_unique p q hp hq he
  · rw [s.Queue]; exact hi.queue_nodup
  · intro id hid
    rw [s.Queue] at hid
    obtain ⟨p, h1, h2⟩ := hi.queue_ok id hid
    exact ⟨p, by rw [s.Clients]; exact h1, by rw [s.RoomID]; exact h2⟩
  · intro rid room hg
    rw [s.Rooms] at hg
    simp only [Hub.registered, s.Clients, s.ID, s.RoomID, s.RoomManager]
    exact hi.rooms_ok rid room hg
  · intro p hp
    rw [s.next] at hp
    rw [s.RoomID, s.RoomManager]
    exact hi.roomid_ok p hp
  · intro p room hp hg
    rw [s.next] at hp
    rw [s.Rooms, s.RoomID] at hg
    exact hi.member p room hp hg

theorem Inv.init : Inv NewHub := by
  constructor
  · intro id p hg; simp [NewHub] at hg
  · intro p q hp; simp [NewHub] at hp
  · simp [NewHub]
  · intro id hid; simp [NewHub] at hid
  · intro rid room hg; simp [NewHub] at hg
  · intro p hp; simp [NewHub] at hp
  · intro p room hp; simp [NewHub] at hp

/-- A registered client has an allocated address and an open channel. -/
theorem Inv.registered_open {h : Hub} (hi : Inv h) {p : Nat} (hr : h.registered p) :
    p < h.next ∧ (h.mem p).Send.closed = false :=
  ⟨(hi.clients_ok _ _ hr).1, (hi.clients_ok _ _ hr).2.2⟩

/-- The recipient that `HandleMessage` and `HandleDisconnect` pick is a user of the room. -/
theorem Inv.room_users_open {h : Hub} (hi : Inv h) {rid : String} {room : Room}
    (hg : h.Rooms.get rid = some room) :
    (h.mem room.User1).Send.closed = false ∧ (h.mem room.User2).Send.closed = false := by
  obtain ⟨_, _, h1, h2, _⟩ := hi.rooms_ok rid room hg
  exact ⟨(hi.registered_open h1).2, (hi.registered_open h2).2⟩

/-- Route completes in every state that satisfies the invariant, and changes
at most pending frames. -/
theorem HandleMessage_ok {h : Hub} (hi : Inv h) (msg : Message) :
    ∃ h1, h.HandleMessage msg = .ok h1 ∧ SameShape h h1 := by
  unfold Hub.HandleMessage
  cases hg : h.Rooms.get msg.RoomID with
  | none => exact ⟨h, rfl, SameShape.refl h⟩
  | some room =>
    obtain ⟨o1, o2⟩ := hi.room_users_open hg
    simp only
    split
    · exact ⟨_, trySendTo_open h _ msg o2, sameShape_offerTo h _ msg⟩
    · exact ⟨_, trySendTo_open h _ msg o1, sameShape_offerTo h _ msg⟩

/-! ## Matchmaking re-establishes the invariant -/

section paired
variable (h : Hub) (p1 p2 : Nat) (rest : List String)

@[simp] theorem paired_next : (h.paired p1 p2 rest).next = h.next := rfl
@[simp] theorem paired_Clients : (h.paired p1 p2 rest).Clients = h.Clients := rfl
@[simp] theorem paired_Queue : (h.paired p1 p2 rest).Queue = rest := rfl
@[simp] theorem paired_counter :
    (h.paired p1 p2 rest).RoomManager.counter = h.RoomManager.counter + 1 := rfl
@[simp] theorem paired_Rooms : (h.paired p1 p2 rest).Rooms =
    h.Rooms.set (Itoa (h.RoomManager.counter + 1))
      { ID := Itoa (h.RoomManager.counter + 1), User1 := p1, User2 := p2 } := rfl

@[simp] theorem paired_ID (q : Nat) : ((h.paired p1 p2 rest).mem q).ID = (h.mem q).ID := by
  simp only [Hub.paired, Hub.setRoomID, store_mem]
  split_ifs <;> simp_all

@[simp] theorem paired_Send (q : Nat) : ((h.paired p1 p2 rest).mem q).Send = (h.mem q).Send := by
  simp only [Hub.paired, Hub.setRoomID, store_mem]
  split_ifs <;> simp_all

theorem paired_RoomID (q : Nat) : ((h.paired p1 p2 rest).mem q).RoomID =
    if q = p1 ∨ q = p2 then Itoa (h.RoomManager.counter + 1) else (h.mem q).RoomID := by
  simp only [Hub.paired, Hub.setRoomID, store_mem]
  split_ifs <;> simp_all

end paired

theorem MatchUsers_short {h : Hub} (hq : h.Queue.length < 2) : h.MatchUsers = .ok h := by
  unfold Hub.MatchUsers
  split
  · rename_i u1 u2 rest he
    rw [he] at hq; simp only [List.length_cons] at hq; omega
  · rfl

theorem MatchUsers_pair {h : Hub} {u1 u2 : String} {rest : List String} {p1 p2 : Nat}
    (hq : h.Queue = u1 :: u2 :: rest) (h1 : h.Clients.get u1 = some p1)
    (h2 : h.Clients.get u2 = some p2) (o1 : (h.mem p1).Send.closed = false)
    (o2 : (h.mem p2).Send.closed = false) :
    h.MatchUsers = .ok (((h.paired p1 p2 rest).offerTo p1
        (sendOffer (Itoa (h.RoomManager.counter + 1)))).offerTo p2
        (matchFound (Itoa (h.RoomManager.counter + 1)))) := by
  have e1 : (h.paired p1 p2 rest).trySendTo p1 (sendOffer (Itoa (h.RoomManager.counter + 1)))
      = .ok ((h.paired p1 p2 rest).offerTo p1 (sendOffer (Itoa (h.RoomManager.counter + 1)))) :=
    trySendTo_open _ _ _ (by simpa using o1)
  have e2 : ((h.paired p1 p2 rest).offerTo p1
      (sendOffer (Itoa (h.RoomManager.counter + 1)))).trySendTo p2
        (matchFound (Itoa (h.RoomManager.counter + 1)))
      = .ok (((h.paired p1 p2 rest).offerTo p1
        (sendOffer (Itoa (h.RoomManager.counter + 1)))).offerTo p2
        (matchFound (Itoa (h.RoomManager.counter + 1)))) :=
    trySendTo_open _ _ _ (by
      rw [(sameShape_offerTo _ _ _).closed]; simpa using o2)
  unfold Hub.MatchUsers
  rw [hq]
  simp only [h1, h2]
  show (match (h.paired p1 p2 rest).trySendTo p1 (sendOffer (Itoa (h.RoomManager.counter + 1))) with
    | .ok h5 => h5.trySendTo p2 (matchFound (Itoa (h.RoomManager.counter + 1)))
    | .error f => .error f) = _
  rw [e1]
  exact e2

theorem Inv.paired {h : Hub} (hi : Inv h) {u1 u2 : String} {rest : List String} {p1 p2 : Nat}
    (hq : h.Queue = u1 :: u2 :: rest) (h1 : h.Clients.get u1 = some p1)
    (h2 : h.Clients.get u2 = some p2) : Inv (h.paired p1 p2 rest) := by
  have hnd := hi.queue_nodup
  rw [hq] at hnd
  have hu12 : u1 ≠ u2 := by
    intro he; subst he; simp at hnd
  have hu1r : u1 ∉ rest := by
    intro hm; simp [hm] at hnd
  have hu2r : u2 ∉ rest := by
    intro hm; simp [hm] at hnd
  obtain ⟨hp1, hid1, -⟩ := hi.clients_ok _ _ h1
  obtain ⟨hp2, hid2, -⟩ := hi.clients_ok _ _ h2
  have hp12 : p1 ≠ p2 := by
    intro he; subst he; exact hu12 (hid1.symm.trans hid2)
  have hr1 : (h.mem p1).RoomID = "" := by
    obtain ⟨p, hg, hr⟩ := hi.queue_ok u1 (by simp [hq])
    rw [h1] at hg; cases hg; exact hr
  have hr2 : (h.mem p2).RoomID = "" := by
    obtain ⟨p, hg, hr⟩ := hi.queue_ok u2 (by simp [hq])
    rw [h2] at hg; cases hg; exact hr
  -- a room of the old table has an identifier that is not the new one, and other users
  have hold : ∀ rid room, h.Rooms.get rid = some room →
      rid ≠ Itoa (h.RoomManager.counter + 1) ∧ room.User1 ≠ p1 ∧ room.User1 ≠ p2 ∧
      room.User2 ≠ p1 ∧ room.User2 ≠ p2 := by
    intro rid room hg
    obtain ⟨-, -, -, -, r1, r2, k, hk1, hk2, hk⟩ := hi.rooms_ok rid room hg
    have hne : rid ≠ "" := by rw [hk]; exact Itoa_ne_empty k
    refine ⟨?_, ?_, ?_, ?_, ?_⟩
    · rw [hk]; intro he; have := Itoa_injective he; omega
    · intro he; rw [he, hr1] at r1; exact hne r1.symm
    · intro he; rw [he, hr2] at r1; exact hne r1.symm
    · intro he; rw [he, hr1] at r2; exact hne r2.symm
    · intro he; rw [he, hr2] at r2; exact hne r2.symm
  constructor
  · intro id p hg
    simpa using hi.clients_ok id p hg
  · intro p q hp hq1 he
    simp only [paired_ID] at he
    exact hi.ids_unique p q hp hq1 he
  · simp only [paired_Queue]
    exact (List.nodup_cons.mp (List.nodup_cons.mp hnd).2).2
  · intro id hid
    simp only [paired_Queue] at hid
    obtain ⟨p, hg, hr⟩ := hi.queue_ok id (by rw [hq]; simp [hid])
    refine ⟨p, hg, ?_⟩
    obtain ⟨-, hidp, -⟩ := hi.clients_ok _ _ hg
    have n1 : p ≠ p1 := by
      intro he; subst he; exact hu1r (by rw [← hid1, hidp]; exact hid)
    have n2 : p ≠ p2 := by
      intro he; subst he; exact hu2r (by rw [← hid2, hidp]; exact hid)
    rw [paired_RoomID]; simp [n1, n2, hr]
  · intro rid room hg
    simp only [paired_Rooms, GoMap.get_set] at hg
    split at hg
    · rename_i hrid
      cases hg
      simp only [Hub.registered, paired_Clients, paired_ID, paired_RoomID, paired_counter]
      refine ⟨hrid.symm, hp12, ?_, ?_, ?_, ?_, ?_⟩
      · rw [hid1]; exact h1
      · rw [hid2]; exact h2
      · simp [hrid]
      · simp [hrid]
      · exact ⟨h.RoomManager.counter + 1, by omega, le_refl _, hrid⟩
    · obtain ⟨a1, a2, a3, a4, a5, a6, k, hk1, hk2, hk⟩ := hi.rooms_ok rid room hg
      obtain ⟨-, b1, b2, b3, b4⟩ := hold rid room hg
      simp only [Hub.registered, paired_Clients, paired_ID, paired_RoomID, paired_counter]
      refine ⟨a1, a2, a3, a4, ?_, ?_, k, hk1, by omega, hk⟩
      · simp [b1, b2, a5]
      · simp [b3, b4, a6]
  · intro p hp
    simp only [paired_next] at hp
    rw [paired_RoomID, paired_counter]
    split
    · exact Or.inr ⟨_, by omega, le_refl _, rfl⟩
    · rcases hi.roomid_ok p hp with h0 | ⟨k, hk1, hk2, hk⟩
      · exact Or.inl h0
      · exact Or.inr ⟨k, hk1, by omega, hk⟩
  · intro p room hp hg
    simp only [paired_next] at hp
    rw [paired_RoomID, paired_Rooms, GoMap.get_set] at hg
    by_cases hm : p = p1 ∨ p = p2
    · simp only [hm, if_true] at hg
      cases hg
      rcases hm with hm | hm
      · exact Or.inl hm.symm
      · exact Or.inr hm.symm
    · simp only [hm, if_false] at hg
      split at hg
      · rename_i hrid
        rcases hi.roomid_ok p hp with h0 | ⟨k, hk1, hk2, hk⟩
        · rw [h0] at hrid; exact absurd hrid.symm (Itoa_ne_empty _)
        · rw [hk] at hrid; have := Itoa_injective hrid; omega
      · exact hi.member p room hp hg

/-- Matchmaking completes in every state that satisfies the invariant and
re-establishes it. -/
theorem MatchUsers_ok {h : Hub} (hi : Inv h) : ∃ h1, h.MatchUsers = .ok h1 ∧ Inv h1 := by
  match hq : h.Queue with
  | [] => exact ⟨h, MatchUsers_short (by simp [hq]), hi⟩
  | [_] => exact ⟨h, MatchUsers_short (by simp [hq]), hi⟩
  | u1 :: u2 :: rest =>
    obtain ⟨p1, g1, -⟩ := hi.queue_ok u1 (by simp [hq])
    obtain ⟨p2, g2, -⟩ := hi.queue_ok u2 (by simp [hq])
    have o1 := (hi.clients_ok _ _ g1).2.2
    have o2 := (hi.clients_ok _ _ g2).2.2
    refine ⟨_, MatchUsers_pair hq g1 g2 o1 o2, ?_⟩
    exact ((hi.paired hq g1 g2).of_sameShape (sameShape_offerTo _ _ _)).of_sameShape
      (sameShape_offerTo _ _ _)

/-! ## Admission re-establishes the invariant -/

theorem RunRegister_eq (h : Hub) (c : Client) (ho : c.Send.closed = false)
    (hs : c.Send.buf.length < c.Send.cap) : h.RunRegister c = (h.lobbied c).MatchUsers := by
  unfold Hub.RunRegister Hub.sendTo Chan.send
  simp only [store_mem, if_true, ho, Bool.false_eq_true, if_false, hs]
  congr 1
  unfold Hub.lobbied Hub.store
  simp only [Hub.mk.injEq, and_true, true_and]
  funext q
  by_cases hq : q = h.next <;> simp [hq, lobby, ho]

theorem RunRegister_blocked (h : Hub) (c : Client) (ho : c.Send.closed = false)
    (hs : ¬ c.Send.buf.length < c.Send.cap) : h.RunRegister c = .error .blocked := by
  unfold Hub.RunRegister Hub.sendTo Chan.send
  simp only [store_mem, if_true, ho, Bool.false_eq_true, if_false, hs]

theorem Inv.lobbied {h : Hub} (hi : Inv h) {c : Client} (hf : Fresh h c) (hr : c.RoomID = "")
    (ho : c.Send.closed = false) : Inv (h.lobbied c) := by
  have hfresh : ∀ id p, h.Clients.get id = some p → id ≠ c.ID ∧ p ≠ h.next := by
    intro id p hg
    obtain ⟨hp, hid, -⟩ := hi.clients_ok id p hg
    exact ⟨fun he => hf p hp (hid.trans he), by omega⟩
  have hmem : ∀ q, q < h.next → (h.lobbied c).mem q = h.mem q := by
    intro q hq
    have : q ≠ h.next := by omega
    simp [Hub.lobbied, this]
  have hnew : (h.lobbied c).mem h.next =
      { c with Send := { c.Send with buf := c.Send.buf ++ [lobby] } } := by
    simp [Hub.lobbied]
  have hnext : (h.lobbied c).next = h.next + 1 := rfl
  have hcl : (h.lobbied c).Clients = h.Clients.set c.ID h.next := rfl
  have hqu : (h.lobbied c).Queue = h.Queue ++ [c.ID] := rfl
  have hrm : (h.lobbied c).Rooms = h.Rooms := rfl
  have hct : (h.lobbied c).RoomManager = h.RoomManager := rfl
  have hreg : ∀ q, h.registered q → (h.lobbied c).registered q := by
    intro q hq
    obtain ⟨n1, n2⟩ := hfresh _ _ hq
    have hlt := (hi.clients_ok _ _ hq).1
    simp only [Hub.registered, hcl, hmem q hlt]
    rw [GoMap.get_set_ne _ _ n1]; exact hq
  constructor
  · intro id p hg
    rw [hcl, GoMap.get_set] at hg
    rw [hnext]
    split at hg
    · rename_i hid
      cases hg
      rw [hnew]; exact ⟨by omega, hid.symm, ho⟩
    · obtain ⟨hp, hid, hop⟩ := hi.clients_ok id p hg
      rw [hmem p hp]; exact ⟨by omega, hid, hop⟩
  · intro p q hp hq he
    rw [hnext] at hp hq
    rcases Nat.lt_succ_iff_lt_or_eq.mp hp with hp1 | hp1 <;>
      rcases Nat.lt_succ_iff_lt_or_eq.mp hq with hq1 | hq1
    · rw [hmem p hp1, hmem q hq1] at he
      exact hi.ids_unique p q hp1 hq1 he
    · subst hq1
      rw [hmem p hp1, hnew] at he
      exact absurd he (hf p hp1)
    · subst hp1
      rw [hmem q hq1, hnew] at he
      exact absurd he.symm (hf q hq1)
    · rw [hp1, hq1]
  · rw [hqu]
    refine List.Nodup.append hi.queue_nodup (List.nodup_singleton _) ?_
    intro id h1 h2
    obtain ⟨p, hg, -⟩ := hi.queue_ok id h1
    have : id = c.ID := by simpa using h2
    exact (hfresh id p hg).1 this
  · intro id hid
    rw [hqu, List.mem_append] at hid
    rcases hid with hid | hid
    · obtain ⟨p, hg, hrp⟩ := hi.queue_ok id hid
      obtain ⟨n1, -⟩ := hfresh id p hg
      refine ⟨p, ?_, ?_⟩
      · rw [hcl, GoMap.get_set_ne _ _ n1]; exact hg
      · rw [hmem p (hi.clients_ok _ _ hg).1]; exact hrp
    · have : id = c.ID := by simpa using hid
      subst this
      refine ⟨h.next, ?_, ?_⟩
      · rw [hcl]; simp
      · rw [hnew]; exact hr
  · intro rid room hg
    rw [hrm] at hg
    obtain ⟨a1, a2, a3, a4, a5, a6, a7⟩ := hi.rooms_ok rid room hg
    have l1 := (hi.clients_ok _ _ a3).1
    have l2 := (hi.clients_ok _ _ a4).1
    refine ⟨a1, a2, hreg _ a3, hreg _ a4, ?_, ?_, ?_⟩
    · rw [hmem _ l1]; exact a5
    · rw [hmem _ l2]; exact a6
    · rw [hct]; exact a7
  · intro p hp
    rw [hnext] at hp
    rw [hct]
    rcases Nat.lt_succ_iff_lt_or_eq.mp hp with hp1 | hp1
    · rw [hmem p hp1]; exact hi.roomid_ok p hp1
    · subst hp1; rw [hnew]; exact Or.inl hr
  · intro p room hp hg
    rw [hnext] at hp
    rw [hrm] at hg
    rcases Nat.lt_succ_iff_lt_or_eq.mp hp with hp1 | hp1
    · rw [hmem p hp1] at hg; exact hi.member p room hp1 hg
    · subst hp1
      rw [hnew] at hg
      simp only [hr] at hg
      obtain ⟨-, -, -, -, -, -, k, -, -, hk⟩ := hi.rooms_ok _ room hg
      exact absurd hk.symm (Itoa_ne_empty k)

/-- Admission of a new connection with space for the lobby frame completes
and re-establishes the invariant. -/
theorem RunRegister_ok {h : Hub} (hi : Inv h) {c : Client} (hf : Fresh h c) (hr : c.RoomID = "")
    (ho : c.Send.closed = false) (hs : c.Send.buf.length < c.Send.cap) :
    ∃ h1, h.RunRegister c = .ok h1 ∧ Inv h1 := by
  rw [RunRegister_eq h c ho hs]
  exact MatchUsers_ok (hi.lobbied hf hr ho)

theorem RunRegister_inv {h h1 : Hub} (hi : Inv h) {c : Client} (hf : Fresh h c)
    (hr : c.RoomID = "") (ho : c.Send.closed = false) (hrun : h.RunRegister c = .ok h1) :
    Inv h1 := by
  by_cases hs : c.Send.buf.length < c.Send.cap
  · obtain ⟨h2, e, i2⟩ := RunRegister_ok hi hf hr ho hs
    rw [e] at hrun; cases hrun; exact i2
  · rw [RunRegister_blocked h c ho hs] at hrun; cases hrun

/-! ## Removal re-establishes the invariant; reachable states -/

theorem RunUnregister_unregistered {h : Hub} {p : Nat}
    (hn : h.Clients.get (h.mem p).ID = none) : h.RunUnregister p = .ok h := by
  unfold Hub.RunUnregister
  rw [hn]

theorem RunUnregister_eq {h : Hub} {p p1 : Nat} (hg : h.Clients.get (h.mem p).ID = some p1)
    (ho : (h.mem p).Send.closed = false) :
    h.RunUnregister p = (h.removed p).HandleDisconnect p := by
  unfold Hub.RunUnregister Hub.closeSend Chan.close
  rw [hg]
  simp only [store_mem, ho, Bool.false_eq_true, if_false]
  rfl

theorem removed_ID (h : Hub) (p q : Nat) : ((h.removed p).mem q).ID = (h.mem q).ID := by
  by_cases hq : q = p <;> simp [Hub.removed, hq]

theorem removed_RoomID (h : Hub) (p q : Nat) : ((h.removed p).mem q).RoomID = (h.mem q).RoomID := by
  by_cases hq : q = p <;> simp [Hub.removed, hq]

theorem removed_mem_ne (h : Hub) {p q : Nat} (hq : q ≠ p) : (h.removed p).mem q = h.mem q := by
  simp [Hub.removed, hq]

theorem removed_buf (h : Hub) (p q : Nat) :
    ((h.removed p).mem q).Send.buf = (h.mem q).Send.buf := by
  by_cases hq : q = p <;> simp [Hub.removed, hq]

theorem HandleDisconnect_none {g : Hub} {p : Nat}
    (hn : (g.mem p).RoomID = "" ∨ g.Rooms.get (g.mem p).RoomID = none) :
    g.HandleDisconnect p = .ok g := by
  unfold Hub.HandleDisconnect
  rcases hn with hn | hn
  · simp [hn]
  · split
    · rw [hn]
    · rfl

/-- In a state with the invariant, no room has the empty identifier. -/
theorem Inv.no_empty_room {h : Hub} (hi : Inv h) : h.Rooms.get "" = none := by
  cases hg : h.Rooms.get "" with
  | none => rfl
  | some room =>
    obtain ⟨-, -, -, -, -, -, k, -, -, hk⟩ := hi.rooms_ok _ room hg
    exact absurd hk.symm (Itoa_ne_empty k)

/-- The peer of a member of a room is the other user: a different, registered
client with an open channel. -/
theorem Inv.peer_facts {h : Hub} (hi : Inv h) {p : Nat} {room : Room} (hp : p < h.next)
    (hg : h.Rooms.get (h.mem p).RoomID = some room) :
    room.peer p ≠ p ∧ room.has (room.peer p) ∧ h.registered (room.peer p) ∧
      (h.mem (room.peer p)).Send.closed = false ∧
      ((h.mem room.User1).ID = (h.mem p).ID ↔ room.User1 = p) := by
  obtain ⟨-, a2, a3, a4, -, -, -⟩ := hi.rooms_ok _ room hg
  have hm := hi.member p room hp hg
  have hiff : (h.mem room.User1).ID = (h.mem p).ID ↔ room.User1 = p := by
    constructor
    · intro he; exact hi.ids_unique _ _ (hi.clients_ok _ _ a3).1 hp he
    · intro he; rw [he]
  unfold Room.peer
  by_cases h1 : room.User1 = p
  · rw [if_pos h1]
    refine ⟨?_, Or.inr rfl, a4, (hi.clients_ok _ _ a4).2.2, hiff⟩
    intro he; exact a2 (h1.trans he.symm)
  · rw [if_neg h1]
    exact ⟨h1, Or.inl rfl, a3, (hi.clients_ok _ _ a3).2.2, hiff⟩

theorem HandleDisconnect_removed {h : Hub} (hi : Inv h) {p : Nat} {room : Room} (hp : p < h.next)
    (hg : h.Rooms.get (h.mem p).RoomID = some room) :
    (h.removed p).HandleDisconnect p = .ok (h.torn p room) := by
  obtain ⟨n1, -, -, o1, hiff⟩ := hi.peer_facts hp hg
  have hne : (h.mem p).RoomID ≠ "" := by
    intro he; rw [he, hi.no_empty_room] at hg; cases hg
  have hopen : ((h.removed p).mem (room.peer p)).Send.closed = false := by
    rw [removed_mem_ne h n1]; exact o1
  unfold Hub.HandleDisconnect
  simp only [removed_RoomID, removed_ID, hne, ne_eq, not_false_eq_true, if_true]
  have hr : (h.removed p).Rooms = h.Rooms := rfl
  rw [hr, hg]
  simp only
  have hother : (if (h.mem room.User1).ID = (h.mem p).ID then room.User2 else room.User1)
      = room.peer p := by
    unfold Room.peer
    by_cases h1 : room.User1 = p
    · simp [h1]
    · have : ¬ (h.mem room.User1).ID = (h.mem p).ID := fun he => h1 (hiff.mp he)
      simp [h1, this]
  rw [hother]
  show (match (h.removed p).trySendTo (room.peer p) disconnected with
    | .ok h1 => Except.ok { h1 with Rooms := h1.Rooms.delete (h1.mem p).RoomID }
    | .error f => .error f) = _
  rw [trySendTo_open _ _ _ hopen]
  simp only [Hub.torn]
  congr 2
  rw [(sameShape_offerTo _ _ _).RoomID, removed_RoomID]
  rfl

theorem unreg_removed {h : Hub} (hi : Inv h) {p : Nat}
    (hn : (h.mem p).RoomID = "" ∨ h.Rooms.get (h.mem p).RoomID = none) :
    Unreg h p (h.removed p) := by
  have hnone : h.Rooms.get (h.mem p).RoomID = none := by
    rcases hn with hn | hn
    · rw [hn]; exact hi.no_empty_room
    · exact hn
  refine ⟨rfl, rfl, rfl, ?_, rfl, removed_ID h p, removed_RoomID h p, ?_⟩
  · rw [GoMap.delete_of_get_none _ hnone]; rfl
  · intro q hq; rw [removed_mem_ne h hq]

theorem unreg_torn (h : Hub) (p : Nat) (room : Room) : Unreg h p (h.torn p room) := by
  have s := sameShape_offerTo (h.removed p) (room.peer p) disconnected
  refine ⟨rfl, rfl, rfl, rfl, rfl, ?_, ?_, ?_⟩
  · intro q; exact (s.ID q).trans (removed_ID h p q)
  · intro q; exact (s.RoomID q).trans (removed_RoomID h p q)
  · intro q hq
    refine (s.closed q).trans ?_
    rw [removed_mem_ne h hq]

theorem Inv.unreg {h f : Hub} (hi : Inv h) {p : Nat} (hr : h.registered p) (u : Unreg h p f) :
    Inv f := by
  have hp := (hi.clients_ok _ _ hr).1
  -- a client registered under another identifier is not `p`
  have hother : ∀ id q, id ≠ (h.mem p).ID → h.Clients.get id = some q → q ≠ p := by
    intro id q hne hg he
    subst he
    exact hne (hi.clients_ok _ _ hg).2.1.symm
  -- a room that survives has users other than `p`
  have hroom : ∀ rid room, f.Rooms.get rid = some room →
      h.Rooms.get rid = some room ∧ room.User1 ≠ p ∧ room.User2 ≠ p := by
    intro rid room hg
    rw [u.Rooms, GoMap.get_delete] at hg
    split at hg
    · cases hg
    · rename_i hne
      obtain ⟨-, -, -, -, r1, r2, -⟩ := hi.rooms_ok rid room hg
      refine ⟨hg, ?_, ?_⟩
      · intro he; rw [he] at r1; exact hne r1.symm
      · intro he; rw [he] at r2; exact hne r2.symm
  have hreg : ∀ q, q ≠ p → h.registered q → f.registered q := by
    intro q hq hrq
    have hlt := (hi.clients_ok _ _ hrq).1
    have hne : (h.mem q).ID ≠ (h.mem p).ID := fun he => hq (hi.ids_unique q p hlt hp he)
    simp only [Hub.registered, u.Clients, u.ID]
    rw [GoMap.get_delete_ne _ hne]; exact hrq
  constructor
  · intro id q hg
    rw [u.Clients, GoMap.get_delete] at hg
    split at hg
    · cases hg
    · rename_i hne
      obtain ⟨a1, a2, a3⟩ := hi.clients_ok id q hg
      rw [u.next, u.ID, u.closed q (hother id q hne hg)]
      exact ⟨a1, a2, a3⟩
  · intro a b ha hb he
    rw [u.next] at ha hb
    rw [u.ID, u.ID] at he
    exact hi.ids_unique a b ha hb he
  · rw [u.Queue]; exact hi.queue_nodup.erase _
  · intro id hid
    rw [u.Queue] at hid
    have hmem : id ∈ h.Queue := List.mem_of_mem_erase hid
    have hne : id ≠ (h.mem p).ID := by
      intro he; subst he
      exact (hi.queue_nodup.mem_erase_iff.mp hid).1 rfl
    obtain ⟨q, hg, hrq⟩ := hi.queue_ok id hmem
    refine ⟨q, ?_, ?_⟩
    · rw [u.Clients, GoMap.get_delete_ne _ hne]; exact hg
    · rw [u.RoomID]; exact hrq
  · intro rid room hg
    obtain ⟨hg1, n1, n2⟩ := hroom rid room hg
    obtain ⟨a1, a2, a3, a4, a5, a6, a7⟩ := hi.rooms_ok rid room hg1
    refine ⟨a1, a2, hreg _ n1 a3, hreg _ n2 a4, ?_, ?_, ?_⟩
    · rw [u.RoomID]; exact a5
    · rw [u.RoomID]; exact a6
    · rw [u.RoomManager]; exact a7
  · intro q hq
    rw [u.next] at hq
    rw [u.RoomID, u.RoomManager]
    exact hi.roomid_ok q hq
  · intro q room hq hg
    rw [u.next] at hq
    rw [u.RoomID] at hg
    exact hi.member q room hq (hroom _ room hg).1

/-- A client created earlier and still registered is registered at its own address. -/
theorem Inv.registered_of_get {h : Hub} (hi : Inv h) {p p1 : Nat} (hp : p < h.next)
    (hg : h.Clients.get (h.mem p).ID = some p1) : h.registered p := by
  obtain ⟨a1, a2, -⟩ := hi.clients_ok _ _ hg
  have : p1 = p := hi.ids_unique p1 p a1 hp a2
  subst this
  exact hg

/-- The removal of a registered client in a room. -/
theorem RunUnregister_matched {h : Hub} (hi : Inv h) {p : Nat} {room : Room}
    (hr : h.registered p) (hg : h.Rooms.get (h.mem p).RoomID = some room) :
    h.RunUnregister p = .ok (h.torn p room) := by
  obtain ⟨hp, ho⟩ := hi.registered_open hr
  rw [RunUnregister_eq hr ho]
  exact HandleDisconnect_removed hi hp hg

/-- The removal of a registered client that is in no room of the table. -/
theorem RunUnregister_unmatched {h : Hub} (hi : Inv h) {p : Nat} (hr : h.registered p)
    (hn : (h.mem p).RoomID = "" ∨ h.Rooms.get (h.mem p).RoomID = none) :
    h.RunUnregister p = .ok (h.removed p) := by
  obtain ⟨-, ho⟩ := hi.registered_open hr
  rw [RunUnregister_eq hr ho]
  apply HandleDisconnect_none
  rw [removed_RoomID]
  exact hn

/-- Removal completes in every state that satisfies the invariant and
re-establishes it. -/
theorem RunUnregister_ok {h : Hub} (hi : Inv h) {p : Nat} (hp : p < h.next) :
    ∃ h1, h.RunUnregister p = .ok h1 ∧ Inv h1 := by
  cases hg : h.Clients.get (h.mem p).ID with
  | none => exact ⟨h, RunUnregister_unregistered hg, hi⟩
  | some p1 =>
    have hr := hi.registered_of_get hp hg
    cases hroom : h.Rooms.get (h.mem p).RoomID with
    | none =>
      exact ⟨_, RunUnregister_unmatched hi hr (Or.inr hroom),
        hi.unreg hr (unreg_removed hi (Or.inr hroom))⟩
    | some room =>
      exact ⟨_, RunUnregister_matched hi hr hroom, hi.unreg hr (unreg_torn h p room)⟩

theorem Inv.step {h h1 : Hub} (hi : Inv h) {e : Event} (ha : Admissible h e)
    (hrun : h.Run e = .ok h1) : Inv h1 := by
  cases e with
  | Register c =>
    obtain ⟨hf, hr, ho⟩ := ha
    exact RunRegister_inv hi hf hr ho hrun
  | Unregister p =>
    obtain ⟨h2, e2, i2⟩ := RunUnregister_ok hi ha
    have : h.RunUnregister p = .ok h1 := hrun
    rw [e2] at this; cases this; exact i2
  | Broadcast m =>
    obtain ⟨h2, e2, s2⟩ := HandleMessage_ok hi m
    have : h.HandleMessage m = .ok h1 := hrun
    rw [e2] at this; cases this; exact hi.of_sameShape s2
  | Drain p =>
    have : Except.ok (h.store p { h.mem p with Send := (h.mem p).Send.recv }) = Except.ok h1 := hrun
    cases this
    exact hi.of_sameShape (sameShape_drain h p)

theorem Reachable.inv {h : Hub} (hr : Reachable h) : Inv h := by
  induction hr with
  | init => exact Inv.init
  | step h e h1 _ ha hrun ih => exact ih.step ha hrun

theorem Reachable.afterEvents {h : Hub} (hr : Reachable h) :
    ∀ (es : List Event) (h1 : Hub), h.allAdmissible es = true → h.RunAll es = .ok h1 → Reachable h1 := by
  intro es
  induction es generalizing h with
  | nil =>
    intro h1 _ hrun
    simp only [Hub.RunAll] at hrun
    cases hrun; exact hr
  | cons e es ih =>
    intro h1 ha hrun
    simp only [Hub.allAdmissible, Bool.and_eq_true, decide_eq_true_eq] at ha
    simp only [Hub.RunAll] at hrun
    cases he : h.Run e with
    | error f => rw [he] at hrun; cases hrun
    | ok h2 =>
      rw [he] at hrun ha
      exact ih (Reachable.step h e h2 hr ha.1 he) h1 ha.2 hrun

/-- A trace of admissible events that completes from `NewHub` ends in a reachable state. -/
theorem reachable_after (es : List Event) (ha : NewHub.allAdmissible es = true)
    (hc : NewHub.completes es = true) : Reachable (Hub.after es) := by
  unfold Hub.completes at hc
  unfold Hub.after
  cases hrun : NewHub.RunAll es with
  | error f => rw [hrun] at hc; cases hc
  | ok h1 => exact Reachable.init.afterEvents es h1 ha hrun

/-! ## Invariants of the reachable states (C7, C8, C9) -/

/-- C7: in every reachable state the Waiting Queue holds no identifier twice,
and every identifier in it resolves to a registered participant with that
identifier whose current-room field is empty; no created participant with a
queued identifier has a room. -/
theorem C7_queue_invariant (h : Hub) (hr : Reachable h) :
    h.Queue.Nodup ∧
    (∀ id, id ∈ h.Queue → List.count id h.Queue = 1) ∧
    (∀ id, id ∈ h.Queue →
      ∃ p, h.Clients.get id = some p ∧ (h.mem p).ID = id ∧ (h.mem p).RoomID = "") ∧
    (∀ q, q < h.next → (h.mem q).ID ∈ h.Queue → (h.mem q).RoomID = "") := by
  have hi := hr.inv
  refine ⟨hi.queue_nodup, ?_, ?_, ?_⟩
  · intro id hid
    exact List.count_eq_one_of_mem hi.queue_nodup hid
  · intro id hid
    obtain ⟨p, hg, hroom⟩ := hi.queue_ok id hid
    exact ⟨p, hg, (hi.clients_ok _ _ hg).2.1, hroom⟩
  · intro q hq hid
    obtain ⟨p, hg, hroom⟩ := hi.queue_ok _ hid
    obtain ⟨hp, hidp, -⟩ := hi.clients_ok _ _ hg
    have : p = q := hi.ids_unique p q hp hq hidp
    subst this
    exact hroom

/-- Witness of C7: after A, B and C the queue holds C alone, and C has no room. -/
theorem C7_witness :
    Reachable (Hub.after traceABC) ∧ (Hub.after traceABC).Queue = ["C"] ∧
    (Hub.after traceABC).Queue.Nodup ∧
    (∃ p, (Hub.after traceABC).Clients.get "C" = some p ∧ ((Hub.after traceABC).mem p).ID = "C" ∧
      ((Hub.after traceABC).mem p).RoomID = "") ∧
    ((Hub.after traceABC).mem 2).RoomID = "" :=
  ⟨reachable_after traceABC (by decide) (by decide), by decide,
    (C7_queue_invariant _ (reachable_after traceABC (by decide) (by decide))).1,
    (C7_queue_invariant _ (reachable_after traceABC (by decide) (by decide))).2.2.1 "C"
      (by decide),
    (C7_queue_invariant _ (reachable_after traceABC (by decide) (by decide))).2.2.2 2
      (by decide) (by decide)⟩

/-- C8 (as stated, refuted): after A and B are matched in room "1" and A is
removed, B is registered, the room table is empty, and the current-room field
of B still reads "1". -/
theorem C8_survivor_keeps_room_id :
    Reachable (Hub.after traceSurvivor) ∧ (Hub.after traceSurvivor).registered 1 ∧
    (Hub.after traceSurvivor).Rooms.entries = [] ∧
    ((Hub.after traceSurvivor).mem 1).RoomID = "1" ∧
    ((Hub.after traceSurvivor).mem 1).RoomID ≠ "" :=
  ⟨reachable_after traceSurvivor (by decide) (by decide), by decide, by decide, by decide,
    by decide⟩

/-- C8 (amended): in every reachable state, the current-room field of a
registered participant that is a user of no room of the table is empty, or it
is the identifier of a room created earlier that is no longer in the table. -/
theorem C8_unmatched_room_id (h : Hub) (p : Nat) (hr : Reachable h) (hp : h.registered p)
    (hu : ∀ rid room, h.Rooms.get rid = some room → ¬ room.has p) :
    (h.mem p).RoomID = "" ∨
    ∃ k, 1 ≤ k ∧ k ≤ h.RoomManager.counter ∧ (h.mem p).RoomID = Itoa k ∧
      h.Rooms.get (Itoa k) = none := by
  have hi := hr.inv
  have hlt := (hi.clients_ok _ _ hp).1
  rcases hi.roomid_ok p hlt with h0 | ⟨k, hk1, hk2, hk⟩
  · exact Or.inl h0
  · refine Or.inr ⟨k, hk1, hk2, hk, ?_⟩
    cases hg : h.Rooms.get (Itoa k) with
    | none => rfl
    | some room =>
      rw [← hk] at hg
      exact absurd (hi.member p room hlt hg) (hu _ room hg)

/-- Witness of C8 (amended): the survivor B after the removal of A. -/
theorem C8_witness :
    Reachable (Hub.after traceSurvivor) ∧ (Hub.after traceSurvivor).registered 1 ∧
    (((Hub.after traceSurvivor).mem 1).RoomID = "" ∨
      ∃ k, 1 ≤ k ∧ k ≤ (Hub.after traceSurvivor).RoomManager.counter ∧
        ((Hub.after traceSurvivor).mem 1).RoomID = Itoa k ∧
        (Hub.after traceSurvivor).Rooms.get (Itoa k) = none) :=
  ⟨reachable_after traceSurvivor (by decide) (by decide), by decide,
    C8_unmatched_room_id _ 1 (reachable_after traceSurvivor (by decide) (by decide)) (by decide)
      (by
        intro rid room hg
        have he : (Hub.after traceSurvivor).Rooms = GoMap.empty := by decide
        rw [he] at hg
        simp at hg)⟩

/-- C9: in every reachable state each room of the table binds two distinct
participants, both registered and with open outbound channels; Route completes
for every message, and the removal of any created participant, teardown
included, completes: no enqueue attempt meets a closed channel. -/
theorem C9_room_users_live (h : Hub) (hr : Reachable h) :
    (∀ rid room, h.Rooms.get rid = some room →
      room.User1 ≠ room.User2 ∧ h.registered room.User1 ∧ h.registered room.User2 ∧
      (h.mem room.User1).Send.closed = false ∧ (h.mem room.User2).Send.closed = false) ∧
    (∀ msg, ∃ h1, h.HandleMessage msg = .ok h1) ∧
    (∀ p, p < h.next → ∃ h1, h.RunUnregister p = .ok h1) ∧
    (∀ p room, h.registered p → h.Rooms.get (h.mem p).RoomID = some room →
      ∃ h1, (h.removed p).HandleDisconnect p = .ok h1) := by
  have hi := hr.inv
  refine ⟨?_, ?_, ?_, ?_⟩
  · intro rid room hg
    obtain ⟨-, a2, a3, a4, -⟩ := hi.rooms_ok rid room hg
    exact ⟨a2, a3, a4, (hi.registered_open a3).2, (hi.registered_open a4).2⟩
  · intro msg
    obtain ⟨h1, e, -⟩ := HandleMessage_ok hi msg
    exact ⟨h1, e⟩
  · intro p hp
    obtain ⟨h1, e, -⟩ := RunUnregister_ok hi hp
    exact ⟨h1, e⟩
  · intro p room hp hg
    exact ⟨_, HandleDisconnect_removed hi (hi.clients_ok _ _ hp).1 hg⟩

/-- Witness of C9: the state after A, B and C, with room "1" of A and B. -/
theorem C9_witness :
    Reachable (Hub.after traceABC) ∧
    (Hub.after traceABC).Rooms.get "1" = some { ID := "1", User1 := 0, User2 := 1 } ∧
    ((Hub.after traceABC).registered 0 ∧ (Hub.after traceABC).registered 1 ∧
      ((Hub.after traceABC).mem 0).Send.closed = false ∧
      ((Hub.after traceABC).mem 1).Send.closed = false) ∧
    (∀ msg, ∃ h1, (Hub.after traceABC).HandleMessage msg = .ok h1) ∧
    (∃ h1, (Hub.after traceABC).RunUnregister 0 = .ok h1) :=
  ⟨reachable_after traceABC (by decide) (by decide), by decide,
    ((C9_room_users_live _ (reachable_after traceABC (by decide) (by decide))).1 "1"
      { ID := "1", User1 := 0, User2 := 1 } (by decide)).2,
    (C9_room_users_live _ (reachable_after traceABC (by decide) (by decide))).2.1,
    (C9_room_users_live _ (reachable_after traceABC (by decide) (by decide))).2.2.1 0
      (by decide)⟩

/-! ## Routing and removal of a matched participant (C10, C5, C3) -/

theorem offerTo_buf_self (h : Hub) (p : Nat) (m : Message) :
    ((h.offerTo p m).mem p).Send.buf =
      if (h.mem p).Send.buf.length < (h.mem p).Send.cap then (h.mem p).Send.buf ++ [m]
      else (h.mem p).Send.buf := by
  simp [Hub.offerTo, offer_buf]

theorem offerTo_mem_ne (h : Hub) {p q : Nat} (m : Message) (hq : q ≠ p) :
    (h.offerTo p m).mem q = h.mem q := by
  simp [Hub.offerTo, hq]

theorem store_self (h : Hub) (p : Nat) : h.store p (h.mem p) = h := by
  cases h with
  | mk mem next Clients Queue Rooms RoomManager =>
    simp only [Hub.store, Hub.mk.injEq, and_true]
    funext q
    split
    · rename_i hq; rw [hq]
    · rfl

theorem offerTo_full (h : Hub) (p : Nat) (m : Message)
    (hf : ¬ (h.mem p).Send.buf.length < (h.mem p).Send.cap) : h.offerTo p m = h := by
  unfold Hub.offerTo Chan.offer
  rw [if_neg hf]
  exact store_self h p

/-- The recipient Route picks for a message stamped by a user of the room is the peer. -/
theorem Inv.recipient_peer {h : Hub} (hi : Inv h) {a : Nat} {room : Room} (ha : a < h.next)
    (hg : h.Rooms.get (h.mem a).RoomID = some room) :
    (if (h.mem room.User1).ID = (h.mem a).ID then room.User2 else room.User1) = room.peer a := by
  obtain ⟨-, -, -, -, hiff⟩ := hi.peer_facts ha hg
  unfold Room.peer
  by_cases h1 : room.User1 = a
  · rw [if_pos h1, if_pos (hiff.mpr h1)]
  · rw [if_neg h1, if_neg (fun he => h1 (hiff.mp he))]

/-- C10 (as stated, refuted): with A and B in room "1" and C queued, the chat
message that C sends naming room "1" is appended to the buffer of A. -/
theorem C10_outsider_frame_reaches_user1 :
    Reachable (Hub.after traceABC) ∧
    (Hub.after traceABC).Rooms.get "1" = some { ID := "1", User1 := 0, User2 := 1 } ∧
    ((Hub.after traceABC).mem 0).ID = "A" ∧ ((Hub.after traceABC).mem 1).ID = "B" ∧
    ((Hub.after traceABC).mem 2).ID = "C" ∧
    ReadPump ((Hub.after traceABC).mem 2) { Typ := "chat", RoomID := "1", Text := "hi" }
      = some outsiderMsg ∧
    ((Hub.after traceABC).mem 0).Send.buf = [lobby, sendOffer "1"] ∧
    NewHub.completes (traceABC ++ [.Broadcast outsiderMsg]) = true ∧
    ((Hub.after (traceABC ++ [.Broadcast outsiderMsg])).mem 0).Send.buf
      = [lobby, sendOffer "1", outsiderMsg] :=
  ⟨reachable_after traceABC (by decide) (by decide), by decide, by decide, by decide, by decide,
    by decide, by decide, by decide, by decide⟩

/-- C10 (amended): in every reachable state, for a room R of the table and a
message that names R and is stamped with an identifier of neither user of R,
Route completes, leaves the buffer of User2 of R and of every participant
other than User1 unchanged, and appends the message to the buffer of User1 of
R when that buffer has space. -/
theorem C10_outsider_route (h : Hub) (rid : String) (room : Room) (msg : Message)
    (hr : Reachable h) (hg : h.Rooms.get rid = some room) (hm : msg.RoomID = rid)
    (h1 : msg.From ≠ (h.mem room.User1).ID) (_h2 : msg.From ≠ (h.mem room.User2).ID) :
    ∃ hn, h.Run (.Broadcast msg) = .ok hn ∧
      (hn.mem room.User2).Send.buf = (h.mem room.User2).Send.buf ∧
      (∀ q, q ≠ room.User1 → (hn.mem q).Send.buf = (h.mem q).Send.buf) ∧
      (hn.mem room.User1).Send.buf =
        (if (h.mem room.User1).Send.buf.length < (h.mem room.User1).Send.cap
          then (h.mem room.User1).Send.buf ++ [msg] else (h.mem room.User1).Send.buf) := by
  have hi := hr.inv
  obtain ⟨-, a2, -⟩ := hi.rooms_ok rid room hg
  obtain ⟨o1, -⟩ := hi.room_users_open hg
  refine ⟨h.offerTo room.User1 msg, ?_, ?_, ?_, ?_⟩
  · show h.HandleMessage msg = _
    unfold Hub.HandleMessage
    rw [hm, hg]
    simp only
    rw [if_neg (fun he => h1 he.symm)]
    exact trySendTo_open h _ msg o1
  · rw [offerTo_mem_ne h msg (fun he => a2 he.symm)]
  · intro q hq; rw [offerTo_mem_ne h msg hq]
  · exact offerTo_buf_self h _ msg

/-- Witness of C10 (amended): the message of C in the state after A, B, C. -/
theorem C10_witness :
    Reachable (Hub.after traceABC) ∧
    ∃ hn, (Hub.after traceABC).Run (.Broadcast outsiderMsg) = .ok hn ∧
      (hn.mem 1).Send.buf = ((Hub.after traceABC).mem 1).Send.buf :=
  ⟨reachable_after traceABC (by decide) (by decide), by
    obtain ⟨hn, e, b2, -, -⟩ := C10_outsider_route (Hub.after traceABC) "1"
      { ID := "1", User1 := 0, User2 := 1 } outsiderMsg
      (reachable_after traceABC (by decide) (by decide)) (by decide) (by decide) (by decide)
      (by decide)
    exact ⟨hn, e, b2⟩⟩

/-- C5 (as stated, refuted): with A and B in room "1" and 256 frames pending
for B (capacity 256), the offer of A passes the read loop of A and Route, and
the buffer of B is the same as before: nothing is enqueued. -/
theorem C5_full_peer_gets_nothing :
    Reachable (Hub.after traceFull) ∧
    (Hub.after traceFull).Rooms.get "1" = some { ID := "1", User1 := 0, User2 := 1 } ∧
    (Hub.after traceFull).registered 0 ∧ ((Hub.after traceFull).mem 0).RoomID = "1" ∧
    (Hub.after traceFull).registered 1 ∧ ((Hub.after traceFull).mem 1).RoomID = "1" ∧
    ((Hub.after traceFull).mem 1).Send.cap = 256 ∧
    ((Hub.after traceFull).mem 1).Send.buf.length = 256 ∧
    ReadPump ((Hub.after traceFull).mem 0) forgedOffer = some { forgedOffer with From := "A" } ∧
    NewHub.completes (traceFull ++ [.Broadcast { forgedOffer with From := "A" }]) = true ∧
    ((Hub.after (traceFull ++ [.Broadcast { forgedOffer with From := "A" }])).mem 1).Send.buf
      = ((Hub.after traceFull).mem 1).Send.buf :=
  ⟨reachable_after traceFull (by decide) (by decide), by decide, by decide, by decide, by decide,
    by decide, by decide, by decide, by decide, by decide, by decide⟩

/-- C5 (amended): in every reachable state, for a registered participant A
whose room R is in the table and a wire message of forwardable type with
roomId R and any `from`, the read loop of A forwards a message with `from`
set to the identifier of A and all other fields as sent; Route completes and
appends exactly that message to the buffer of the peer of A when the buffer
has space, and leaves the buffer as it is when it is full. -/
theorem C5_stamped_route (h : Hub) (a : Nat) (room : Room) (wire : Message)
    (hr : Reachable h) (ha : h.registered a)
    (hg : h.Rooms.get (h.mem a).RoomID = some room)
    (ht : forwardable wire.Typ = true) (hrid : wire.RoomID = (h.mem a).RoomID) :
    ∃ msg hn, ReadPump (h.mem a) wire = some msg ∧ h.Run (.Broadcast msg) = .ok hn ∧
      msg.From = (h.mem a).ID ∧ msg.Typ = wire.Typ ∧ msg.RoomID = wire.RoomID ∧
      msg.SDP = wire.SDP ∧ msg.Candidate = wire.Candidate ∧ msg.CandType = wire.CandType ∧
      msg.Text = wire.Text ∧
      room.has a ∧ room.has (room.peer a) ∧ room.peer a ≠ a ∧
      (hn.mem (room.peer a)).Send.buf =
        (if (h.mem (room.peer a)).Send.buf.length < (h.mem (room.peer a)).Send.cap
          then (h.mem (room.peer a)).Send.buf ++ [msg] else (h.mem (room.peer a)).Send.buf) ∧
      (∀ q, q ≠ room.peer a → (hn.mem q).Send.buf = (h.mem q).Send.buf) := by
  have hi := hr.inv
  have hlt := (hi.clients_ok _ _ ha).1
  obtain ⟨n1, m1, -, o1, -⟩ := hi.peer_facts hlt hg
  refine ⟨{ wire with From := (h.mem a).ID }, h.offerTo (room.peer a) { wire with From := (h.mem a).ID },
    ?_, ?_, rfl, rfl, rfl, rfl, rfl, rfl, rfl, hi.member a room hlt hg, m1, n1, ?_, ?_⟩
  · simp [ReadPump, ht]
  · show h.HandleMessage _ = _
    unfold Hub.HandleMessage
    simp only [hrid, hg]
    rw [hi.recipient_peer hlt hg]
    exact trySendTo_open h _ _ o1
  · exact offerTo_buf_self h _ _
  · intro q hq; rw [offerTo_mem_ne h _ hq]

/-- Witness of C5 (amended): the forged offer of A after A and B are matched. -/
theorem C5_witness :
    Reachable (Hub.after traceAB) ∧
    ∃ msg hn, ReadPump ((Hub.after traceAB).mem 0) forgedOffer = some msg ∧
      (Hub.after traceAB).Run (.Broadcast msg) = .ok hn ∧ msg.From = ((Hub.after traceAB).mem 0).ID :=
  ⟨reachable_after traceAB (by decide) (by decide), by
    obtain ⟨msg, hn, e1, e2, e3, -⟩ := C5_stamped_route (Hub.after traceAB) 0
      { ID := "1", User1 := 0, User2 := 1 } forgedOffer
      (reachable_after traceAB (by decide) (by decide)) (by decide) (by decide) (by decide)
      (by decide)
    exact ⟨msg, hn, e1, e2, e3⟩⟩

/-- C3 (as stated, refuted): with A and B in room "1" and 256 frames pending
for B (capacity 256), the removal of A completes and the buffer of B is the
same as before: no `user-disconnected` frame is added. -/
theorem C3_full_peer_not_notified :
    Reachable (Hub.after traceFull) ∧
    (Hub.after traceFull).registered 0 ∧ ((Hub.after traceFull).mem 0).RoomID = "1" ∧
    (Hub.after traceFull).Rooms.get "1" = some { ID := "1", User1 := 0, User2 := 1 } ∧
    ((Hub.after traceFull).mem 1).Send.cap = 256 ∧
    ((Hub.after traceFull).mem 1).Send.buf.length = 256 ∧
    NewHub.completes (traceFull ++ [.Unregister 0]) = true ∧
    ((Hub.after (traceFull ++ [.Unregister 0])).mem 1).Send.buf
      = ((Hub.after traceFull).mem 1).Send.buf ∧
    disconnected ∉ ((Hub.after (traceFull ++ [.Unregister 0])).mem 1).Send.buf :=
  ⟨reachable_after traceFull (by decide) (by decide), by decide, by decide, by decide, by decide,
    by decide, by decide, by decide, by decide⟩

/-- C3 (amended): in every reachable state, the removal of a registered
participant P whose room R is in the table completes; the peer of P in R gets
exactly one `user-disconnected` frame appended to its buffer when the buffer
has space and none when it is full, the buffer of every other participant is
unchanged, and afterwards the lookup of R in the room table fails. -/
theorem C3_remove_matched (h : Hub) (p : Nat) (room : Room) (hr : Reachable h)
    (hp : h.registered p) (hg : h.Rooms.get (h.mem p).RoomID = some room) :
    ∃ hn, h.Run (.Unregister p) = .ok hn ∧
      room.has p ∧ room.has (room.peer p) ∧ room.peer p ≠ p ∧
      (hn.mem (room.peer p)).Send.buf =
        (if (h.mem (room.peer p)).Send.buf.length < (h.mem (room.peer p)).Send.cap
          then (h.mem (room.peer p)).Send.buf ++ [disconnected]
          else (h.mem (room.peer p)).Send.buf) ∧
      (∀ q, q ≠ room.peer p → (hn.mem q).Send.buf = (h.mem q).Send.buf) ∧
      hn.Rooms.get (h.mem p).RoomID = none := by
  have hi := hr.inv
  have hlt := (hi.clients_ok _ _ hp).1
  obtain ⟨n1, m1, -, -, -⟩ := hi.peer_facts hlt hg
  refine ⟨h.torn p room, RunUnregister_matched hi hp hg, hi.member p room hlt hg, m1, n1,
    ?_, ?_, ?_⟩
  · show (((h.removed p).offerTo (room.peer p) disconnected).mem (room.peer p)).Send.buf = _
    rw [offerTo_buf_self, removed_mem_ne h n1]
  · intro q hq
    show (((h.removed p).offerTo (room.peer p) disconnected).mem q).Send.buf = _
    rw [offerTo_mem_ne _ _ hq, removed_buf]
  · show (h.Rooms.delete (h.mem p).RoomID).get (h.mem p).RoomID = none
    simp

/-- Witness of C3 (amended): the removal of A after A and B are matched. -/
theorem C3_witness :
    Reachable (Hub.after traceAB) ∧ (Hub.after traceAB).registered 0 ∧
    ∃ hn, (Hub.after traceAB).Run (.Unregister 0) = .ok hn ∧
      (hn.mem 1).Send.buf = [lobby, matchFound "1", disconnected] ∧ hn.Rooms.get "1" = none :=
  ⟨reachable_after traceAB (by decide) (by decide), by decide, by
    obtain ⟨hn, e, -, -, -, b, -, g⟩ := C3_remove_matched (Hub.after traceAB) 0
      { ID := "1", User1 := 0, User2 := 1 }
      (reachable_after traceAB (by decide) (by decide)) (by decide) (by decide)
    refine ⟨hn, e, ?_, ?_⟩
    · have hpeer : Room.peer { ID := "1", User1 := 0, User2 := 1 } 0 = 1 := by decide
      rw [hpeer] at b
      rw [b]
      decide
    · have hid : ((Hub.after traceAB).mem 0).RoomID = "1" := by decide
      rw [hid] at g
      exact g⟩

/-! ## Removal of a queued participant (C4); the bounded buffer (C6) -/

/-- A non-blocking attempt that completes changes nothing but client objects. -/
theorem trySendTo_frame {h h1 : Hub} {p : Nat} {m : Message} (e : h.trySendTo p m = .ok h1) :
    h1.next = h.next ∧ h1.Clients = h.Clients ∧ h1.Rooms = h.Rooms ∧ h1.Queue = h.Queue := by
  unfold Hub.trySendTo at e
  split at e
  · cases e; exact ⟨rfl, rfl, rfl, rfl⟩
  · cases e

theorem Gone.of_frame {h h1 : Hub} {p : Nat} (g : Gone h p) (hn : h1.next = h.next)
    (hc : h1.Clients = h.Clients) (hr : h1.Rooms = h.Rooms) : Gone h1 p :=
  ⟨by rw [hn]; exact g.alloc, by rw [hc]; exact g.noClient, by rw [hr]; exact g.noRoom⟩

theorem Gone.matchUsers {h h1 : Hub} {p : Nat} (g : Gone h p) (e : h.MatchUsers = .ok h1) :
    Gone h1 p := by
  unfold Hub.MatchUsers at e
  split at e
  · rename_i u1 u2 rest hq
    split at e
    · rename_i p1 p2 g1 g2
      simp only at e
      split at e
      · rename_i h5 e5
        obtain ⟨a1, a2, a3, -⟩ := trySendTo_frame e5
        obtain ⟨b1, b2, b3, -⟩ := trySendTo_frame e
        refine ⟨?_, ?_, ?_⟩
        · rw [b1, a1]; exact g.alloc
        · rw [b2, a2]; exact g.noClient
        · intro rid room hg
          rw [b3, a3] at hg
          simp only [Hub.setRoomID, store_Rooms, GoMap.get_set] at hg
          split at hg
          · cases hg
            intro hhas
            rcases hhas with hh | hh
            · exact g.noClient u1 (by rw [g1]; exact congrArg some hh)
            · exact g.noClient u2 (by rw [g2]; exact congrArg some hh)
          · exact g.noRoom rid room hg
      · cases e
    · cases e
      refine g.of_frame ?_ ?_ ?_ <;>
        (simp only [Hub.RemoveFromQueue]; split <;> split <;> rfl)
  · cases e; exact g

theorem Gone.handleDisconnect {h h1 : Hub} {p q : Nat} (g : Gone h p)
    (e : h.HandleDisconnect q = .ok h1) : Gone h1 p := by
  unfold Hub.HandleDisconnect at e
  by_cases hne : (h.mem q).RoomID ≠ ""
  · rw [if_pos hne] at e
    cases hg : h.Rooms.get (h.mem q).RoomID with
    | none => rw [hg] at e; cases e; exact g
    | some room =>
      rw [hg] at e
      simp only at e
      generalize (if (h.mem room.User1).ID = (h.mem q).ID then room.User2 else room.User1)
        = other at e
      cases ht : h.trySendTo other { Typ := "user-disconnected" } with
      | error f => rw [ht] at e; cases e
      | ok h2 =>
        rw [ht] at e
        cases e
        obtain ⟨a1, a2, a3, -⟩ := trySendTo_frame ht
        refine ⟨?_, ?_, ?_⟩
        · show p < h2.next; rw [a1]; exact g.alloc
        · intro id; show h2.Clients.get id ≠ _; rw [a2]; exact g.noClient id
        · intro rid room1 hg1
          have hg2 : (h2.Rooms.delete (h2.mem q).RoomID).get rid = some room1 := hg1
          rw [GoMap.get_delete] at hg2
          split at hg2
          · cases hg2
          · rw [a3] at hg2; exact g.noRoom rid room1 hg2
  · rw [if_neg hne] at e
    cases e; exact g

theorem Gone.run {h h1 : Hub} {p : Nat} (g : Gone h p) (e : Event) (hrun : h.Run e = .ok h1) :
    Gone h1 p := by
  cases e with
  | Register c =>
    have e1 : h.RunRegister c = .ok h1 := hrun
    unfold Hub.RunRegister Hub.sendTo at e1
    simp only at e1
    split at e1
    · rename_i h2 e2
      split at e2
      · cases e2
        refine Gone.matchUsers ⟨?_, ?_, ?_⟩ e1
        · have := g.alloc
          show p < h.next + 1
          omega
        · intro id hg
          have hg1 : (h.Clients.set c.ID h.next).get id = some p := hg
          rw [GoMap.get_set] at hg1
          split at hg1
          · cases hg1; exact absurd g.alloc (lt_irrefl _)
          · exact g.noClient id hg1
        · exact g.noRoom
      · cases e2
    · cases e1
  | Unregister q =>
    have e1 : h.RunUnregister q = .ok h1 := hrun
    unfold Hub.RunUnregister Hub.closeSend at e1
    split at e1
    · simp only at e1
      split at e1
      · rename_i h2 e2
        split at e2
        · cases e2
          refine @Gone.handleDisconnect _ h1 p q ?_ e1
          refine ⟨g.alloc, ?_, g.noRoom⟩
          intro id hg
          have hg1 : (h.Clients.delete (h.mem q).ID).get id = some p := hg
          rw [GoMap.get_delete] at hg1
          split at hg1
          · cases hg1
          · exact g.noClient id hg1
        · cases e2
      · cases e1
    · cases e1; exact g
  | Broadcast m =>
    have e1 : h.HandleMessage m = .ok h1 := hrun
    unfold Hub.HandleMessage at e1
    split at e1
    · cases e1; exact g
    · simp only at e1
      obtain ⟨a1, a2, a3, -⟩ := trySendTo_frame e1
      exact g.of_frame a1 a2 a3
  | Drain q =>
    have e1 : Except.ok (h.store q { h.mem q with Send := (h.mem q).Send.recv }) = Except.ok h1 :=
      hrun
    cases e1
    exact g.of_frame rfl rfl rfl

theorem Gone.stays {p : Nat} : ∀ (es : List Event) (h h1 : Hub), Gone h p →
    h.RunAll es = .ok h1 → Gone h1 p := by
  intro es
  induction es with
  | nil => intro h h1 g e; simp only [Hub.RunAll] at e; cases e; exact g
  | cons ev es ih =>
    intro h h1 g e
    simp only [Hub.RunAll] at e
    cases hr : h.Run ev with
    | error f => rw [hr] at e; cases e
    | ok h2 => rw [hr] at e; exact ih h2 h1 (g.run ev hr) e

/-- C4: in every reachable state, the removal of a registered participant P
whose identifier is in the Waiting Queue completes, leaves every outbound
buffer and the room table unchanged, takes the identifier of P out of the
queue, and no sequence of later events of any kind ends in a state with a
room that has P as a user. -/
theorem C4_remove_queued (h : Hub) (p : Nat) (hr : Reachable h) (hp : h.registered p)
    (hq : (h.mem p).ID ∈ h.Queue) :
    (h.mem p).RoomID = "" ∧
    ∃ hn, h.Run (.Unregister p) = .ok hn ∧
      (∀ q, (hn.mem q).Send.buf = (h.mem q).Send.buf) ∧
      hn.Rooms = h.Rooms ∧
      (h.mem p).ID ∉ hn.Queue ∧
      (∀ id, id ≠ (h.mem p).ID → (id ∈ hn.Queue ↔ id ∈ h.Queue)) ∧
      (∀ (es : List Event) (hl : Hub), hn.RunAll es = .ok hl →
        ∀ rid room, hl.Rooms.get rid = some room → room.User1 ≠ p ∧ room.User2 ≠ p) := by
  have hi := hr.inv
  have hlt := (hi.clients_ok _ _ hp).1
  have hroom : (h.mem p).RoomID = "" := by
    obtain ⟨p1, hg, hr1⟩ := hi.queue_ok _ hq
    have : h.Clients.get (h.mem p).ID = some p := hp
    rw [this] at hg; cases hg; exact hr1
  have hgone : Gone (h.removed p) p := by
    refine ⟨hlt, ?_, ?_⟩
    · intro id hg
      have hg1 : (h.Clients.delete (h.mem p).ID).get id = some p := hg
      rw [GoMap.get_delete] at hg1
      split at hg1
      · cases hg1
      · rename_i hne
        exact hne (hi.clients_ok _ _ hg1).2.1.symm
    · intro rid room hg hhas
      have hg1 : h.Rooms.get rid = some room := hg
      obtain ⟨-, -, -, -, r1, r2, k, -, -, hk⟩ := hi.rooms_ok rid room hg1
      have hne : rid ≠ "" := by rw [hk]; exact Itoa_ne_empty k
      rcases hhas with hh | hh
      · rw [hh, hroom] at r1; exact hne r1.symm
      · rw [hh, hroom] at r2; exact hne r2.symm
  refine ⟨hroom, h.removed p, RunUnregister_unmatched hi hp (Or.inl hroom), removed_buf h p, rfl,
    ?_, ?_, ?_⟩
  · show (h.mem p).ID ∉ h.Queue.erase (h.mem p).ID
    intro hm
    exact (hi.queue_nodup.mem_erase_iff.mp hm).1 rfl
  · intro id hne
    show id ∈ h.Queue.erase (h.mem p).ID ↔ id ∈ h.Queue
    exact List.mem_erase_of_ne hne
  · intro es hl hrun rid room hg
    have g := hgone.stays es _ hl hrun
    have := g.noRoom rid room hg
    exact ⟨fun he => this (Or.inl he), fun he => this (Or.inr he)⟩

/-- Witness of C4: the removal of the queued C after A, B and C were admitted. -/
theorem C4_witness :
    Reachable (Hub.after traceABC) ∧ (Hub.after traceABC).registered 2 ∧
    ((Hub.after traceABC).mem 2).ID ∈ (Hub.after traceABC).Queue ∧
    ∃ hn, (Hub.after traceABC).Run (.Unregister 2) = .ok hn ∧
      hn.Rooms = (Hub.after traceABC).Rooms ∧ ((Hub.after traceABC).mem 2).ID ∉ hn.Queue :=
  ⟨reachable_after traceABC (by decide) (by decide), by decide, by decide, by
    obtain ⟨-, hn, e, -, r, q, -⟩ := C4_remove_queued (Hub.after traceABC) 2
      (reachable_after traceABC (by decide) (by decide)) (by decide) (by decide)
    exact ⟨hn, e, r, q⟩⟩

theorem trySendAll_offer (p : Nat) : ∀ (ms : List Message) (h : Hub),
    (h.mem p).Send.closed = false → (h.mem p).Send.buf.length ≤ (h.mem p).Send.cap →
    ∃ h1, h.trySendAll p ms = .ok h1 ∧
      (h1.mem p).Send.buf =
        (h.mem p).Send.buf ++ ms.take ((h.mem p).Send.cap - (h.mem p).Send.buf.length) ∧
      (h1.mem p).Send.cap = (h.mem p).Send.cap ∧
      SameShape h h1 ∧ (∀ q, q ≠ p → h1.mem q = h.mem q) := by
  intro ms
  induction ms with
  | nil =>
    intro h _ _
    exact ⟨h, rfl, by simp, rfl, SameShape.refl h, fun _ _ => rfl⟩
  | cons m ms ih =>
    intro h ho hb
    have s := sameShape_offerTo h p m
    have hcap : ((h.offerTo p m).mem p).Send.cap = (h.mem p).Send.cap := by
      simp [Hub.offerTo]
    have hbuf := offerTo_buf_self h p m
    have ho1 : ((h.offerTo p m).mem p).Send.closed = false := by rw [s.closed]; exact ho
    have hb1 : ((h.offerTo p m).mem p).Send.buf.length ≤ ((h.offerTo p m).mem p).Send.cap := by
      rw [hcap, hbuf]
      split
      · simp; omega
      · exact hb
    obtain ⟨h1, e1, b1, c1, s1, o1⟩ := ih (h.offerTo p m) ho1 hb1
    refine ⟨h1, ?_, ?_, c1.trans hcap, s.trans s1, ?_⟩
    · simp only [Hub.trySendAll]
      rw [trySendTo_open h p m ho]
      exact e1
    · rw [b1, hcap, hbuf]
      by_cases hs : (h.mem p).Send.buf.length < (h.mem p).Send.cap
      · rw [if_pos hs]
        have hk : (h.mem p).Send.cap - (h.mem p).Send.buf.length
            = ((h.mem p).Send.cap - ((h.mem p).Send.buf ++ [m]).length) + 1 := by
          simp; omega
        rw [hk, List.take_succ_cons]
        simp
      · rw [if_neg hs]
        have hk : (h.mem p).Send.cap - (h.mem p).Send.buf.length = 0 := by omega
        rw [hk]
        simp
    · intro q hq
      rw [o1 q hq, offerTo_mem_ne h m hq]

/-- C6: for an open outbound channel of capacity C that holds at most C
frames, any sequence of non-blocking enqueue attempts on it completes; the
buffer then holds the frames it held followed by the first attempted frames
up to the free space, in attempt order, at most C in all; the rest of the hub
state is unchanged; and an attempt on a full buffer, alone or inside Route,
returns the hub state it started from. -/
theorem C6_bounded_fifo (h : Hub) (p : Nat) (ms : List Message)
    (ho : (h.mem p).Send.closed = false)
    (hb : (h.mem p).Send.buf.length ≤ (h.mem p).Send.cap) :
    (∃ hn, h.trySendAll p ms = .ok hn ∧
      (hn.mem p).Send.buf =
        (h.mem p).Send.buf ++ ms.take ((h.mem p).Send.cap - (h.mem p).Send.buf.length) ∧
      (hn.mem p).Send.cap = (h.mem p).Send.cap ∧
      (hn.mem p).Send.buf.length ≤ (h.mem p).Send.cap ∧
      (hn.mem p).Send.buf.length
        = min ((h.mem p).Send.buf.length + ms.length) (h.mem p).Send.cap ∧
      hn.Clients = h.Clients ∧ hn.Queue = h.Queue ∧ hn.Rooms = h.Rooms ∧
      hn.RoomManager = h.RoomManager ∧ hn.next = h.next ∧
      (∀ q, q ≠ p → hn.mem q = h.mem q)) ∧
    (∀ m, (h.mem p).Send.buf.length = (h.mem p).Send.cap → h.trySendTo p m = .ok h) ∧
    (∀ msg room, h.Rooms.get msg.RoomID = some room →
      (if (h.mem room.User1).ID = msg.From then room.User2 else room.User1) = p →
      (h.mem p).Send.buf.length = (h.mem p).Send.cap → h.Run (.Broadcast msg) = .ok h) := by
  refine ⟨?_, ?_, ?_⟩
  · obtain ⟨hn, e, b, c, s, o⟩ := trySendAll_offer p ms h ho hb
    refine ⟨hn, e, b, c, ?_, ?_, s.Clients, s.Queue, s.Rooms, s.RoomManager, s.next, o⟩
    · rw [b]; simp; omega
    · rw [b]; simp; omega
  · intro m hfull
    rw [trySendTo_open h p m ho, offerTo_full h p m (by omega)]
  · intro msg room hg hrec hfull
    show h.HandleMessage msg = _
    unfold Hub.HandleMessage
    rw [hg]
    simp only
    rw [hrec, trySendTo_open h p msg ho, offerTo_full h p msg (by omega)]

/-- Witness of C6: 300 chat frames offered to B right after A and B are
matched, and one more attempt and one more Route once 256 frames are pending. -/
theorem C6_witness :
    ((Hub.after traceAB).mem 1).Send.closed = false ∧
    ((Hub.after traceAB).mem 1).Send.buf.length ≤ ((Hub.after traceAB).mem 1).Send.cap ∧
    (∃ hn, (Hub.after traceAB).trySendAll 1 (List.replicate 300 chatA) = .ok hn ∧
      (hn.mem 1).Send.buf.length = 256) ∧
    ((Hub.after traceFull).mem 1).Send.buf.length = ((Hub.after traceFull).mem 1).Send.cap ∧
    (Hub.after traceFull).trySendTo 1 disconnected = .ok (Hub.after traceFull) ∧
    (Hub.after traceFull).Run (.Broadcast chatA) = .ok (Hub.after traceFull) :=
  ⟨by decide, by decide, by
    obtain ⟨⟨hn, e, -, -, -, l, -⟩, -⟩ := C6_bounded_fifo (Hub.after traceAB) 1
      (List.replicate 300 chatA) (by decide) (by decide)
    refine ⟨hn, e, ?_⟩
    rw [l]
    decide,
   by decide,
   (C6_bounded_fifo (Hub.after traceFull) 1 [] (by decide) (by decide)).2.1 disconnected
     (by decide),
   (C6_bounded_fifo (Hub.after traceFull) 1 [] (by decide) (by decide)).2.2 chatA
     { ID := "1", User1 := 0, User2 := 1 } (by decide) (by decide) (by decide)⟩

/-! ## Strict FIFO pairing under admissions only -/

theorem getElem?_snoc_iff {α : Type} (l : List α) (a : α) (i : Nat) (x : α) :
    (l ++ [a])[i]? = some x ↔ l[i]? = some x ∨ (i = l.length ∧ x = a) := by
  rcases Nat.lt_trichotomy i l.length with h | h | h
  · rw [List.getElem?_append_left h]
    constructor
    · intro e; exact Or.inl e
    · rintro (e | ⟨e, -⟩)
      · exact e
      · omega
  · subst h
    rw [List.getElem?_append_right (le_refl _)]
    simp [eq_comm]
  · rw [List.getElem?_append_right (le_of_lt h)]
    have h1 : l[i]? = none := List.getElem?_eq_none (le_of_lt h)
    have h2 : [a][i - l.length]? = none := List.getElem?_eq_none (by simp; omega)
    rw [h1, h2]
    simp; omega

theorem getElem?_some_facts {α : Type} {l : List α} {i : Nat} {x : α} (h : l[i]? = some x) :
    i < l.length ∧ x ∈ l := by
  obtain ⟨hi, e⟩ := List.getElem?_eq_some.mp h
  exact ⟨hi, e ▸ List.getElem_mem _⟩

theorem offerTo_cap (h : Hub) (p : Nat) (m : Message) (q : Nat) :
    ((h.offerTo p m).mem q).Send.cap = (h.mem q).Send.cap := by
  by_cases hq : q = p <;> simp [Hub.offerTo, hq]

theorem RegState.start : RegState [] NewHub := by
  constructor
  · rfl
  · rfl
  · intro _; rfl
  · intro hp; simp at hp
  · intro i c hc; simp at hc
  · intro i c hc; simp at hc
  · intro i c hc; simp at hc
  · intro k h1 h2; simp at h2; omega
  · intro rid room hg; simp [NewHub] at hg
  · rfl

theorem RegState.admitOne {cs : List Client} {h : Hub} (s : RegState cs h) {c : Client}
    (hfresh : ∀ x, x ∈ cs → x.ID ≠ c.ID) (ho : c.Send.closed = false)
    (hs : c.Send.buf.length < c.Send.cap) :
    ∃ h1, h.RunRegister c = .ok h1 ∧ RegState (cs ++ [c]) h1 := by
  rw [RunRegister_eq h c ho hs]
  have Lnext : (h.lobbied c).next = cs.length + 1 := by
    show h.next + 1 = _; rw [s.next]
  have Lold : ∀ i, i < cs.length → (h.lobbied c).mem i = h.mem i := by
    intro i hi
    have : i ≠ h.next := by rw [s.next]; omega
    simp [Hub.lobbied, this]
  have Lnew : (h.lobbied c).mem cs.length =
      { c with Send := { c.Send with buf := c.Send.buf ++ [lobby] } } := by
    simp [Hub.lobbied, s.next]
  have Lcl : (h.lobbied c).Clients = h.Clients.set c.ID cs.length := by
    show h.Clients.set c.ID h.next = _; rw [s.next]
  have Lq : (h.lobbied c).Queue = h.Queue ++ [c.ID] := rfl
  have Lr : (h.lobbied c).Rooms = h.Rooms := rfl
  have Lc : (h.lobbied c).RoomManager = h.RoomManager := rfl
  have hold : ∀ i x, cs[i]? = some x → i < cs.length ∧ x.ID ≠ c.ID := by
    intro i x hx
    obtain ⟨hi, hm⟩ := getElem?_some_facts hx
    exact ⟨hi, hfresh x hm⟩
  have Lget : ∀ i x, cs[i]? = some x → (h.lobbied c).Clients.get x.ID = some i := by
    intro i x hx
    rw [Lcl, GoMap.get_set_ne _ _ (hold i x hx).2]
    exact (s.client i x hx).2.1
  have Lgetc : (h.lobbied c).Clients.get c.ID = some cs.length := by
    rw [Lcl]; simp
  have hlen : (cs ++ [c]).length = cs.length + 1 := by simp
  rcases Nat.mod_two_eq_zero_or_one cs.length with hpar | hpar
  · -- the new client waits alone
    have hq : (h.lobbied c).Queue = [c.ID] := by rw [Lq, s.queue_even hpar]; rfl
    have hhalf : (cs.length + 1) / 2 = cs.length / 2 := by omega
    refine ⟨h.lobbied c, MatchUsers_short (by rw [hq]; simp), ?_⟩
    constructor
    · rw [Lnext, hlen]
    · rw [Lc, s.counter, hlen, hhalf]
    · intro hp; rw [hlen] at hp; omega
    · intro _
      refine ⟨c, ?_, hq⟩
      rw [hlen]
      exact (getElem?_snoc_iff cs c _ c).mpr (Or.inr ⟨by omega, rfl⟩)
    · intro i x hx
      rcases (getElem?_snoc_iff cs c i x).mp hx with hx1 | ⟨hi, hxc⟩
      · obtain ⟨a1, a2, a3, a4⟩ := s.client i x hx1
        rw [Lold i (hold i x hx1).1]
        exact ⟨a1, Lget i x hx1, a3, a4⟩
      · rw [hi, hxc, Lnew]
        exact ⟨rfl, Lgetc, ho, rfl⟩
    · intro i x hx hlt
      rw [hlen, hhalf] at hlt
      rcases (getElem?_snoc_iff cs c i x).mp hx with hx1 | ⟨hi, hxc⟩
      · rw [Lold i (hold i x hx1).1]
        exact s.matched i x hx1 hlt
      · omega
    · intro i x hx hge
      rw [hlen, hhalf] at hge
      rcases (getElem?_snoc_iff cs c i x).mp hx with hx1 | ⟨hi, hxc⟩
      · rw [Lold i (hold i x hx1).1]
        exact s.waiting i x hx1 hge
      · rw [hi, hxc, Lnew]
    · intro k hk1 hk2
      rw [hlen, hhalf] at hk2
      rw [Lr]; exact s.rooms k hk1 hk2
    · intro rid room hg
      rw [Lr] at hg
      rw [hlen, hhalf]; exact s.keys rid room hg
    · rw [hlen, hhalf, Lr]; exact s.len
  · -- the new client is paired with the one that waits
    obtain ⟨l, hl, hq0⟩ := s.queue_odd hpar
    have hq : (h.lobbied c).Queue = l.ID :: c.ID :: [] := by rw [Lq, hq0]; rfl
    have hli := (hold _ l hl).1
    have g1 := Lget _ l hl
    have o1 : ((h.lobbied c).mem (cs.length - 1)).Send.closed = false := by
      rw [Lold _ hli]; exact (s.client _ l hl).2.2.1
    have o2 : ((h.lobbied c).mem cs.length).Send.closed = false := by
      rw [Lnew]; exact ho
    have hhalf : (cs.length + 1) / 2 = cs.length / 2 + 1 := by omega
    have hrid : (h.lobbied c).RoomManager.counter + 1 = cs.length / 2 + 1 := by
      rw [Lc, s.counter]
    refine ⟨_, MatchUsers_pair hq g1 Lgetc o1 o2, ?_⟩
    rw [hrid]
    have S : SameShape ((h.lobbied c).paired (cs.length - 1) cs.length [])
        ((((h.lobbied c).paired (cs.length - 1) cs.length []).offerTo (cs.length - 1)
          (sendOffer (Itoa (cs.length / 2 + 1)))).offerTo cs.length
          (matchFound (Itoa (cs.length / 2 + 1)))) :=
      (sameShape_offerTo _ _ _).trans (sameShape_offerTo _ _ _)
    have nofree : h.Rooms.get (Itoa (cs.length / 2 + 1)) = none := by
      cases hg : h.Rooms.get (Itoa (cs.length / 2 + 1)) with
      | none => rfl
      | some room =>
        obtain ⟨k, -, hk2, hk⟩ := s.keys _ room hg
        have := Itoa_injective hk
        omega
    have Rrooms : ((h.lobbied c).paired (cs.length - 1) cs.length []).Rooms =
        h.Rooms.set (Itoa (cs.length / 2 + 1))
          { ID := Itoa (cs.length / 2 + 1), User1 := cs.length - 1, User2 := cs.length } := by
      rw [paired_Rooms, hrid, Lr]
    have Rroom : ∀ q, (((h.lobbied c).paired (cs.length - 1) cs.length []).mem q).RoomID =
        if q = cs.length - 1 ∨ q = cs.length then Itoa (cs.length / 2 + 1)
        else ((h.lobbied c).mem q).RoomID := by
      intro q; rw [paired_RoomID, hrid]
    constructor
    · rw [S.next, paired_next, Lnext, hlen]
    · rw [S.RoomManager, paired_counter, hrid, hlen, hhalf]
    · intro _; rw [S.Queue, paired_Queue]
    · intro hp; rw [hlen] at hp; omega
    · intro i x hx
      rw [S.ID, S.closed, S.Clients, offerTo_cap, offerTo_cap, paired_ID, paired_Send,
        paired_Clients]
      rcases (getElem?_snoc_iff cs c i x).mp hx with hx1 | ⟨hi, hxc⟩
      · obtain ⟨a1, a2, a3, a4⟩ := s.client i x hx1
        rw [Lold i (hold i x hx1).1]
        exact ⟨a1, Lget i x hx1, a3, a4⟩
      · rw [hi, hxc, Lnew]
        exact ⟨rfl, Lgetc, ho, rfl⟩
    · intro i x hx hlt
      rw [S.RoomID, Rroom]
      rcases (getElem?_snoc_iff cs c i x).mp hx with hx1 | ⟨hi, hxc⟩
      · have hi := (hold i x hx1).1
        by_cases hlast : i = cs.length - 1
        · -- the client that waited: it gets the send-offer
          have hxl : x = l := by
            rw [hlast, hl] at hx1; cases hx1; rfl
          subst hxl
          have hne : cs.length - 1 ≠ cs.length := by omega
          have hw := s.waiting i x hx1 (by omega)
          have hcap := (s.client i x hx1).2.2.2
          refine ⟨?_, ?_⟩
          · rw [if_pos (Or.inl hlast)]
            congr 2; omega
          · rw [hlast, offerTo_mem_ne _ _ hne, offerTo_buf_self, paired_Send, Lold _ hli]
            rw [hlast] at hw hcap
            rw [hw, hcap]
            have hrole : roleMsg (cs.length - 1) = sendOffer (Itoa (cs.length / 2 + 1)) := by
              unfold roleMsg
              rw [if_pos (by omega)]
              congr 2; omega
            rw [hrole]
            simp
        · have hne1 : i ≠ cs.length := by omega
          obtain ⟨m1, m2⟩ := s.matched i x hx1 (by omega)
          refine ⟨?_, ?_⟩
          · rw [if_neg (by omega), Lold i hi]; exact m1
          · rw [offerTo_mem_ne _ _ hne1, offerTo_mem_ne _ _ hlast, paired_Send, Lold i hi]
            exact m2
      · -- the new client: it gets the match-found
        rw [hi, hxc]
        refine ⟨?_, ?_⟩
        · rw [if_pos (Or.inr rfl)]
        · rw [offerTo_buf_self, offerTo_cap, offerTo_mem_ne _ _ (by omega : cs.length ≠ cs.length - 1),
            paired_Send, Lnew]
          have hrole : roleMsg cs.length = matchFound (Itoa (cs.length / 2 + 1)) := by
            unfold roleMsg
            rw [if_neg (by omega)]
          rw [hrole]
          simp
    · intro i x hx hge
      rw [hlen, hhalf] at hge
      have := (getElem?_some_facts hx).1
      rw [hlen] at this
      omega
    · intro k hk1 hk2
      rw [hlen, hhalf] at hk2
      rw [S.Rooms, Rrooms, GoMap.get_set]
      by_cases hk : k = cs.length / 2 + 1
      · subst hk
        rw [if_pos rfl]
        congr 2 <;> omega
      · rw [if_neg (fun he => hk (Itoa_injective he))]
        exact s.rooms k hk1 (by omega)
    · intro rid room hg
      rw [S.Rooms, Rrooms, GoMap.get_set] at hg
      rw [hlen, hhalf]
      split at hg
      · rename_i he
        exact ⟨cs.length / 2 + 1, by omega, le_refl _, he⟩
      · obtain ⟨k, hk1, hk2, hk⟩ := s.keys rid room hg
        exact ⟨k, hk1, by omega, hk⟩
    · rw [S.Rooms, Rrooms, GoMap.len_set_of_get_none _ _ nofree, s.len, hlen, hhalf]

theorem RegState.admitAll : ∀ (cs2 pre : List Client) (h : Hub), RegState pre h →
    ((pre ++ cs2).map Client.ID).Nodup →
    (∀ c, c ∈ cs2 → c.Send.closed = false ∧ c.Send.buf.length < c.Send.cap) →
    ∃ h1, h.RunAll (cs2.map Event.Register) = .ok h1 ∧ RegState (pre ++ cs2) h1 := by
  intro cs2
  induction cs2 with
  | nil =>
    intro pre h s _ _
    exact ⟨h, rfl, by simpa using s⟩
  | cons c cs2 ih =>
    intro pre h s hnd hopen
    have hfresh : ∀ x, x ∈ pre → x.ID ≠ c.ID := by
      intro x hx he
      rw [List.map_append, List.map_cons] at hnd
      have hdis := (List.nodup_append.mp hnd).2.2
      exact hdis (List.mem_map_of_mem _ hx) (by rw [he]; simp)
    obtain ⟨o, n⟩ := hopen c (by simp)
    obtain ⟨h1, e1, s1⟩ := s.admitOne hfresh o n
    obtain ⟨h2, e2, s2⟩ := ih (pre ++ [c]) h1 s1 (by simpa using hnd)
      (fun x hx => hopen x (by simp [hx]))
    refine ⟨h2, ?_, by simpa using s2⟩
    simp only [List.map_cons, Hub.RunAll]
    have e1r : h.Run (Event.Register c) = .ok h1 := e1
    rw [e1r]
    exact e2

/-! ## Admissions only (C1, C2) -/

/-- C1: from `NewHub`, the admission of clients with pairwise distinct
identifiers and open, non-full outbound buffers completes. For every k with
2k ≤ n, the room table maps the k-th room identifier to the room whose User1
is the (2k-1)-th and whose User2 is the (2k)-th admitted participant, both
carry that room identifier, the first was sent `send-offer` and the second
`match-found` after their lobby frame (kept when the buffer had space); the
room table holds exactly the rooms 1..n/2; the Waiting Queue is empty for
even n and holds exactly the identifier of the n-th participant for odd n. -/
theorem C1_fifo_pairing (cs : List Client) (hid : (cs.map Client.ID).Nodup)
    (hbuf : ∀ c, c ∈ cs → c.Send.closed = false ∧ c.Send.buf.length < c.Send.cap) :
    ∃ h, NewHub.RunAll (cs.map Event.Register) = .ok h ∧
      (∀ k a b, 1 ≤ k → 2 * k ≤ cs.length → cs[2 * k - 2]? = some a → cs[2 * k - 1]? = some b →
        h.Rooms.get (Itoa k) = some { ID := Itoa k, User1 := 2 * k - 2, User2 := 2 * k - 1 } ∧
        (h.mem (2 * k - 2)).ID = a.ID ∧ (h.mem (2 * k - 1)).ID = b.ID ∧
        h.Clients.get a.ID = some (2 * k - 2) ∧ h.Clients.get b.ID = some (2 * k - 1) ∧
        (h.mem (2 * k - 2)).RoomID = Itoa k ∧ (h.mem (2 * k - 1)).RoomID = Itoa k ∧
        (h.mem (2 * k - 2)).Send.buf =
          (if a.Send.buf.length + 1 < a.Send.cap
            then a.Send.buf ++ [lobby, { Typ := "send-offer", RoomID := Itoa k }]
            else a.Send.buf ++ [lobby]) ∧
        (h.mem (2 * k - 1)).Send.buf =
          (if b.Send.buf.length + 1 < b.Send.cap
            then b.Send.buf ++ [lobby, { Typ := "match-found", RoomID := Itoa k }]
            else b.Send.buf ++ [lobby])) ∧
      h.Rooms.len = cs.length / 2 ∧
      (∀ rid, (∃ room, h.Rooms.get rid = some room) ↔
        ∃ k, 1 ≤ k ∧ k ≤ cs.length / 2 ∧ rid = Itoa k) ∧
      (cs.length % 2 = 0 → h.Queue = []) ∧
      (cs.length % 2 = 1 → ∃ c, cs[cs.length - 1]? = some c ∧ h.Queue = [c.ID]) := by
  obtain ⟨h, e, s⟩ := RegState.admitAll cs [] NewHub RegState.start (by simpa using hid) hbuf
  rw [List.nil_append] at s
  refine ⟨h, e, ?_, s.len, ?_, s.queue_even, s.queue_odd⟩
  · intro k a b hk1 hk2 ha hb
    obtain ⟨a1, a2, -, -⟩ := s.client _ a ha
    obtain ⟨b1, b2, -, -⟩ := s.client _ b hb
    obtain ⟨a3, a4⟩ := s.matched _ a ha (by omega)
    obtain ⟨b3, b4⟩ := s.matched _ b hb (by omega)
    have ea : (2 * k - 2) / 2 + 1 = k := by omega
    have eb : (2 * k - 1) / 2 + 1 = k := by omega
    have ra : roleMsg (2 * k - 2) = { Typ := "send-offer", RoomID := Itoa k } := by
      unfold roleMsg
      rw [if_pos (by omega), ea]; rfl
    have rb : roleMsg (2 * k - 1) = { Typ := "match-found", RoomID := Itoa k } := by
      unfold roleMsg
      rw [if_neg (by omega), eb]; rfl
    rw [ea] at a3
    rw [eb] at b3
    rw [ra] at a4
    rw [rb] at b4
    exact ⟨s.rooms k hk1 (by omega), a1, b1, a2, b2, a3, b3, a4, b4⟩
  · intro rid
    constructor
    · rintro ⟨room, hg⟩
      exact s.keys rid room hg
    · rintro ⟨k, hk1, hk2, hk⟩
      exact ⟨_, by rw [hk]; exact s.rooms k hk1 hk2⟩

/-- Witness of C1: the admission of A, B and C. -/
theorem C1_witness :
    ([cA, cB, cC].map Client.ID).Nodup ∧
    ∃ h, NewHub.RunAll ([cA, cB, cC].map Event.Register) = .ok h ∧
      h.Rooms.get (Itoa 1) = some { ID := Itoa 1, User1 := 0, User2 := 1 } ∧
      h.Rooms.len = 1 ∧ h.Queue = ["C"] :=
  ⟨by decide, by
    obtain ⟨h, e, p, l, -, -, q⟩ := C1_fifo_pairing [cA, cB, cC] (by decide) (by decide)
    obtain ⟨c, hc, hq⟩ := q (by decide)
    have hcC : c = cC := by
      have : [cA, cB, cC][2]? = some c := hc
      simpa using this.symm
    subst hcC
    exact ⟨h, e, (p 1 cA cB (by decide) (by decide) (by decide) (by decide)).1, l, hq⟩⟩

/-- C2: from `NewHub`, after the admission of A and then B, two clients with
distinct identifiers and open, empty outbound buffers of capacity at least 2,
the buffer of A holds exactly the `lobby` frame followed by `send-offer` with
roomId "1", and the buffer of B exactly the `lobby` frame followed by
`match-found` with roomId "1". -/
theorem C2_two_admissions (A B : Client) (hne : A.ID ≠ B.ID)
    (eA : A.Send.buf = []) (oA : A.Send.closed = false) (kA : 2 ≤ A.Send.cap)
    (eB : B.Send.buf = []) (oB : B.Send.closed = false) (kB : 2 ≤ B.Send.cap) :
    ∃ h, NewHub.RunAll [.Register A, .Register B] = .ok h ∧
      (h.mem 0).ID = A.ID ∧ (h.mem 1).ID = B.ID ∧
      (h.mem 0).Send.buf = [{ Typ := "lobby" }, { Typ := "send-offer", RoomID := "1" }] ∧
      (h.mem 1).Send.buf = [{ Typ := "lobby" }, { Typ := "match-found", RoomID := "1" }] := by
  obtain ⟨h, e, s⟩ := RegState.admitAll [A, B] [] NewHub RegState.start (by simpa using hne)
    (by
      intro c hc
      simp only [List.mem_cons, List.mem_singleton, List.not_mem_nil, or_false] at hc
      rcases hc with hc | hc <;> subst hc
      · exact ⟨oA, by rw [eA]; simp; omega⟩
      · exact ⟨oB, by rw [eB]; simp; omega⟩)
  rw [List.nil_append] at s
  obtain ⟨a1, -⟩ := s.client 0 A rfl
  obtain ⟨b1, -⟩ := s.client 1 B rfl
  obtain ⟨-, a4⟩ := s.matched 0 A rfl (by simp)
  obtain ⟨-, b4⟩ := s.matched 1 B rfl (by simp)
  refine ⟨h, e, a1, b1, ?_, ?_⟩
  · rw [a4, eA, if_pos (by simp; omega)]
    rfl
  · rw [b4, eB, if_pos (by simp; omega)]
    rfl

/-- Witness of C2: the admission of A and B as the gateway builds them. -/
theorem C2_witness :
    cA.ID ≠ cB.ID ∧
    ∃ h, NewHub.RunAll [.Register cA, .Register cB] = .ok h ∧
      (h.mem 0).Send.buf = [{ Typ := "lobby" }, { Typ := "send-offer", RoomID := "1" }] ∧
      (h.mem 1).Send.buf = [{ Typ := "lobby" }, { Typ := "match-found", RoomID := "1" }] :=
  ⟨by decide, by
    obtain ⟨h, e, -, -, a, b⟩ := C2_two_admissions cA cB (by decide) (by decide) (by decide)
      (by decide) (by decide) (by decide) (by decide)
    exact ⟨h, e, a, b⟩⟩

end Omegle
